import Mathlib

/-!
# Stackdriver trace adapter (`mixer/adapter/stackdriver/trace/trace.go`)

A shallow embedding of the tracespan handler: `Validate` and `Build` of the builder, the batch
operation `HandleTraceSpan`, `Close`, and the helpers `extractParentContext`,
`extractSpanContext`, `buildSpanData` and `tryFlush`.

Conventions of the embedding.

* Go fixed-size byte arrays (`trace.TraceID = [16]byte`, `trace.SpanID = [8]byte`) are lists of
  bytes carrying their length.
* A Go `map[string]interface{}` is a key/value list without repeated keys; a `range` loop visits
  the entries in the order of that list (Go leaves the order unspecified, the results below are
  stated through `GoMap.get?` and do not depend on it).
* The effects of a call (invocations of the sampler, of `ExportSpan` and of `Flush`) are returned
  as the chronological list of `Event`s the call performed; the sampler may be stateful, its state
  is threaded explicitly.
* Functions of the imported packages (`b3`, `ochttp`, `trace`, `fmt`) are the fields of a `Lib`
  record, so that the statements hold for every behaviour of those packages.
-/

namespace Trace

/-! ## Values of the Go runtime -/

/-- A Go array `[n]byte`. -/
structure Bytes (n : Nat) where
  bytes : List (Fin 256)
  size_eq : bytes.length = n
deriving DecidableEq

/-- The zero value of `[n]byte`. -/
def Bytes.zero (n : Nat) : Bytes n := ⟨List.replicate n 0, List.length_replicate n 0⟩

/-- The array obtained from the zero value by `copy(a[n - len(b):], b)`. -/
def Bytes.rightAlign (n : Nat) (b : List (Fin 256)) (h : b.length ≤ n) : Bytes n :=
  ⟨List.replicate (n - b.length) 0 ++ b, by simp; omega⟩

/-- An IEEE 754 binary64 value (Go `float64`), by its three bit fields. -/
structure Float64 where
  sign : Bool
  exponent : Fin 2048
  mantissa : Fin (2 ^ 52)
deriving DecidableEq

namespace Float64

/-- The constant `0` as a `float64`. -/
def zero : Float64 := ⟨false, 0, 0⟩

/-- The constant `1` as a `float64`. -/
def one : Float64 := ⟨false, 1023, 0⟩

/-- Not-a-number: all exponent bits set and a non-zero mantissa. -/
def isNaN (x : Float64) : Bool := x.exponent.val == 2047 && x.mantissa.val != 0

/-- Sign-magnitude key: on values that are not NaN the IEEE order is the order of the keys
(both zeros have key `0`, the infinities have the extreme keys). -/
def key (x : Float64) : Int :=
  let m : Int := (x.exponent.val * 2 ^ 52 + x.mantissa.val : Nat)
  if x.sign then -m else m

/-- Go `x < y` on `float64`. -/
def lt (x y : Float64) : Bool := !x.isNaN && !y.isNaN && decide (x.key < y.key)

/-- Go `x <= y` on `float64`. -/
def le (x y : Float64) : Bool := !x.isNaN && !y.isNaN && decide (x.key ≤ y.key)

/-- Go `x == y` on `float64`. -/
def eq (x y : Float64) : Bool := !x.isNaN && !y.isNaN && decide (x.key = y.key)

end Float64

/-- A value of a Go type other than `string`, `int64` and `float64` held in an `interface{}`:
its type name and its bytes. -/
structure OtherValue where
  goType : String
  payload : List (Fin 256)
deriving DecidableEq

/-- A Go `interface{}` value as it occurs in span tags and span attributes. -/
inductive GoValue where
  | string (s : String)
  | int64 (i : Int)
  | float64 (f : Float64)
  | other (o : OtherValue)
deriving DecidableEq

/-- A Go `map[string]V`. -/
structure GoMap (V : Type) where
  entries : List (String × V)
  nodupKeys : (entries.map Prod.fst).Nodup
deriving DecidableEq

namespace GoMap

variable {V : Type}

/-- The result of `make(map[string]V)`. -/
def empty : GoMap V := ⟨[], List.nodup_nil⟩

/-- The lookup `v, ok := m[k]`. -/
def get? (m : GoMap V) (k : String) : Option V := m.entries.lookup k

/-- The keys of the map. -/
def keys (m : GoMap V) : List String := m.entries.map Prod.fst

/-- The assignment `m[k] = v`. -/
def set (m : GoMap V) (k : String) (v : V) : GoMap V :=
  ⟨(k, v) :: m.entries.filter (fun e => e.1 != k), by
    have h := m.nodupKeys
    simp only [List.map_cons, List.nodup_cons, List.mem_map, not_exists, not_and]
    refine ⟨?_, ?_⟩
    · intro e he hk
      have := (List.mem_filter.1 he).2
      simp [hk] at this
    · exact (List.filter_sublist _).map Prod.fst |>.nodup h⟩

end GoMap

/-! ## Types of the imported packages -/

/-- Go `trace.TraceID`. -/
abbrev TraceID := Bytes 16

/-- Go `trace.SpanID`. -/
abbrev SpanID := Bytes 8

/-- Go `trace.SpanContext`. -/
structure SpanContext where
  TraceID : Bytes 16
  SpanID : Bytes 8
  TraceOptions : Nat
deriving DecidableEq

/-- The zero value `trace.SpanContext{}`. -/
def SpanContext.zero : SpanContext := ⟨Bytes.zero 16, Bytes.zero 8, 0⟩

/-- Go `trace.Status`. -/
structure Status where
  Code : Int
  Message : String
deriving DecidableEq

/-- The zero value of `trace.Status`. -/
def Status.zero : Status := ⟨0, ""⟩

/-- Go `trace.SamplingParameters`. -/
structure SamplingParameters where
  ParentContext : SpanContext
  TraceID : Bytes 16
  SpanID : Bytes 8
  Name : String
  HasRemoteParent : Bool
deriving DecidableEq

/-- Go `trace.SamplingDecision`. -/
structure SamplingDecision where
  Sample : Bool
deriving DecidableEq

/-- Go `time.Time`, as nanoseconds. -/
structure Time where
  nanos : Int
deriving DecidableEq

/-- The constant `trace.SpanKindServer`. -/
def SpanKindServer : Nat := 1

/-- Go `trace.SpanData`, with the fields that `buildSpanData` sets (the others keep their zero
value). -/
structure SpanData where
  SpanKind : Nat
  Name : String
  StartTime : Time
  EndTime : Time
  ParentSpanID : Bytes 8
  SpanContext : SpanContext
  HasRemoteParent : Bool
  Status : Status
  Attributes : GoMap GoValue
deriving DecidableEq

/-- Go `tracespan.Instance`, with the fields the handler reads. A batch `[]*tracespan.Instance`
is a list of such records: its entries are not nil. -/
structure Instance where
  Name : String
  TraceId : String
  SpanId : String
  ParentSpanId : String
  SpanName : String
  StartTime : Time
  EndTime : Time
  SpanTags : GoMap GoValue
  HttpStatusCode : Int
deriving DecidableEq

/-- The functions of the imported packages that the handler calls. A parser returns `none` where
the Go function returns the zero value together with `ok = false`. -/
structure Lib where
  ParseTraceID : String → Option TraceID
  ParseSpanID : String → Option SpanID
  TraceStatus : Int → String → Status
  Sprintv : OtherValue → String
  ProbabilitySampler : Float64 → SamplingParameters → SamplingDecision

/-! ## The helpers of `trace.go` -/

/-- The constant `attrHTTPStatusCode`. -/
def attrHTTPStatusCode : String := "http.status_code"

/-- Go `extractParentContext`: the trace identifier must parse, the parent span identifier is
taken as parsed (the zero value when it does not parse, the `ok` of that parse is discarded). -/
def extractParentContext (L : Lib) (val : Instance) : SpanContext × Bool :=
  match L.ParseTraceID val.TraceId with
  | none => (SpanContext.zero, false)
  | some traceID =>
    ({ SpanContext.zero with
        TraceID := traceID
        SpanID := (L.ParseSpanID val.ParentSpanId).getD (Bytes.zero 8) }, true)

/-- Go `extractSpanContext`: the trace identifier of the parent and the parsed span identifier. -/
def extractSpanContext (L : Lib) (val : Instance) (parent : SpanContext) : SpanContext × Bool :=
  match L.ParseSpanID val.SpanId with
  | none => (SpanContext.zero, false)
  | some spanID => ({ SpanContext.zero with TraceID := parent.TraceID, SpanID := spanID }, true)

/-- The type switch in the first loop of `buildSpanData`: `string`, `int64` and `float64` values
are stored as they are, any other value as `fmt.Sprintf("%v", x)`. -/
def coerceTag (L : Lib) : GoValue → GoValue
  | GoValue.other o => GoValue.string (L.Sprintv o)
  | x => x

/-- The first loop of `buildSpanData`: `attributes` after ranging over the tags. -/
def tagAttributes (L : Lib) (tags : GoMap GoValue) : GoMap GoValue :=
  tags.entries.foldl (fun attributes kv => attributes.set kv.1 (coerceTag L kv.2)) GoMap.empty

/-- Go `buildSpanData`. -/
def buildSpanData (L : Lib) (val : Instance) (parentContext spanContext : SpanContext) :
    SpanData :=
  let attributes := tagAttributes L val.SpanTags
  let r : GoMap GoValue × Status :=
    if val.HttpStatusCode > 0 then
      ((match attributes.get? attrHTTPStatusCode with
        | some _ => attributes
        | none => attributes.set attrHTTPStatusCode (GoValue.int64 val.HttpStatusCode)),
       L.TraceStatus val.HttpStatusCode "")
    else (attributes, Status.zero)
  { SpanKind := SpanKindServer
    Name := val.SpanName
    StartTime := val.StartTime
    EndTime := val.EndTime
    ParentSpanID := parentContext.SpanID
    SpanContext :=
      { TraceOptions := spanContext.TraceOptions
        TraceID := spanContext.TraceID
        SpanID := spanContext.SpanID }
    HasRemoteParent := true
    Status := r.2
    Attributes := r.1 }

/-! ## The handler -/

/-- A `trace.Exporter`; its dynamic type may or may not implement the `flusher` interface. -/
structure Exporter where
  implementsFlusher : Bool
deriving DecidableEq

/-- An observable call made by the handler. -/
inductive Event where
  | Sampler (p : SamplingParameters)
  | ExportSpan (span : SpanData)
  | Flush
deriving DecidableEq

/-- A `trace.Sampler`: a Go function value, which may keep state of type `σ` between calls. -/
abbrev Sampler (σ : Type) := σ → SamplingParameters → SamplingDecision × σ

/-- Go `handler`; a nil `sampler` is `none`. -/
structure handler (σ : Type) where
  te : Exporter
  sampler : Option (Sampler σ)

/-- The local state of the loop of `HandleTraceSpan`, the state of the sampler and the calls made
so far, oldest first. -/
structure LoopState (σ : Type) where
  numExported : Nat
  samplerState : σ
  events : List Event

/-- What a call of a handler method leaves behind: the returned error (`none` is `nil`), the
state of the sampler and the calls it made, oldest first. -/
structure Outcome (σ : Type) where
  retErr : Option String
  samplerState : σ
  events : List Event

/-- Go `tryFlush`: `Flush` is called when the exporter implements `flusher`. -/
def tryFlush {σ : Type} (h : handler σ) : List Event :=
  if h.te.implementsFlusher then [Event.Flush] else []

/-- One iteration of the loop of `HandleTraceSpan`; each early exit is a `continue`. -/
def handleOne {σ : Type} (L : Lib) (sampler : Sampler σ) (s : LoopState σ) (val : Instance) :
    LoopState σ :=
  match extractParentContext L val with
  | (_, false) => s
  | (parentContext, true) =>
    match extractSpanContext L val parentContext with
    | (_, false) => s
    | (spanContext, true) =>
      let params : SamplingParameters :=
        { ParentContext := parentContext
          TraceID := spanContext.TraceID
          SpanID := spanContext.SpanID
          Name := val.SpanName
          HasRemoteParent := true }
      let r := sampler s.samplerState params
      let s1 : LoopState σ :=
        { s with samplerState := r.2, events := s.events ++ [Event.Sampler params] }
      if !r.1.Sample then s1
      else
        let spanContext := { spanContext with TraceOptions := 1 }
        let span := buildSpanData L val parentContext spanContext
        { s1 with
            events := s1.events ++ [Event.ExportSpan span]
            numExported := s1.numExported + 1 }

/-- The loop `for _, val := range values` of `HandleTraceSpan`, from loop state `s`. -/
def handleLoop {σ : Type} (L : Lib) (sampler : Sampler σ) (s : LoopState σ)
    (values : List Instance) : LoopState σ :=
  values.foldl (handleOne L sampler) s

/-- Go `HandleTraceSpan`, started with the sampler in state `st`. -/
def HandleTraceSpan {σ : Type} (L : Lib) (h : handler σ) (values : List Instance) (st : σ) :
    Outcome σ :=
  match h.sampler with
  | none => { retErr := none, samplerState := st, events := [] }
  | some sampler =>
    let s := handleLoop L sampler { numExported := 0, samplerState := st, events := [] } values
    { retErr := none
      samplerState := s.samplerState
      events := if s.numExported > 0 then s.events ++ tryFlush h else s.events }

/-! ## The builder -/

/-- Go `config.Params_Trace`. -/
structure Params_Trace where
  SampleProbability : Float64
deriving DecidableEq

/-- Go `config.Params`; a nil `Trace` is `none`. -/
structure Params where
  Trace : Option Params_Trace
deriving DecidableEq

/-- Go `builder`, with the field `Build` reads. -/
structure builder where
  cfg : Params

/-- The ways `Build` ends: with a handler and a nil error, with an error, or in a run-time panic
(the dereference of a nil `Trace`). -/
inductive BuildResult (σ : Type) where
  | ok (h : handler σ)
  | error (err : String)
  | panic

/-- Go `Build`. The package variable `getExporterFunc` is a parameter. -/
def Build {σ : Type} (L : Lib) (getExporterFunc : Params → Except String Exporter)
    (b : builder) : BuildResult σ :=
  match getExporterFunc b.cfg with
  | Except.error err => BuildResult.error err
  | Except.ok exporter =>
    match b.cfg.Trace with
    | none => BuildResult.panic
    | some traceCfg =>
      if Float64.lt Float64.zero traceCfg.SampleProbability then
        BuildResult.ok
          { te := exporter
            sampler := some (fun st p => (L.ProbabilitySampler traceCfg.SampleProbability p, st)) }
      else BuildResult.ok { te := exporter, sampler := none }

/-- Go `adapter.ConfigError`: the configuration field at fault and the message of the underlying
error. -/
structure ConfigError where
  Field : String
  Underlying : String
deriving DecidableEq

/-- Go `*adapter.ConfigErrors`: `none` is the nil pointer, otherwise the errors collected so far,
oldest first. -/
abbrev ConfigErrors := Option (List ConfigError)

/-- Modelled from the spec: `ConfigErrors.Appendf` of `mixer/pkg/adapter`, which is not under the
source tree: it adds one configuration error for the field, with the formatted message, to the
collection (allocating it when the receiver is nil) and returns the collection. The format is
taken without arguments, so the message is the format itself. -/
def ConfigErrors.Appendf (ce : ConfigErrors) (field format : String) : ConfigErrors :=
  some (ce.getD [] ++ [{ Field := field, Underlying := format }])

/-- Go `Validate`: the named result `ce` starts as nil. -/
def Validate (b : builder) : ConfigErrors :=
  let ce : ConfigErrors := none
  match b.cfg.Trace with
  | some t =>
    if Float64.lt t.SampleProbability Float64.zero || Float64.lt Float64.one t.SampleProbability
    then
      ConfigErrors.Appendf ce "trace.sampleProbability"
        "sampling probability must be between 0 and 1 (inclusive)"
    else ce
  | none => ce

/-- Go `Close`: the handler after the call and what the call leaves behind. -/
def Close {σ : Type} (h : handler σ) (st : σ) : handler σ × Outcome σ :=
  (h, { retErr := none, samplerState := st, events := [] })

/-! ## The imported packages

The packages `go.opencensus.io/plugin/ochttp/propagation/b3`, `go.opencensus.io/plugin/ochttp`
and `go.opencensus.io/trace` are not part of the source tree. The definitions of this section
give one `Lib`, used to instantiate the general statements and to state what depends on the
packages themselves. -/

/-- The value of one hexadecimal digit, upper or lower case (`encoding/hex`). -/
def fromHexChar (c : Char) : Option (Fin 16) :=
  let n := c.toNat
  if h : 48 ≤ n ∧ n ≤ 57 then some ⟨n - 48, by omega⟩
  else if h : 97 ≤ n ∧ n ≤ 102 then some ⟨n - 97 + 10, by omega⟩
  else if h : 65 ≤ n ∧ n ≤ 70 then some ⟨n - 65 + 10, by omega⟩
  else none

/-- The byte written by two hexadecimal digits. -/
def hexByte (hi lo : Fin 16) : Fin 256 := ⟨hi.val * 16 + lo.val, by omega⟩

/-- Go `hex.DecodeString`: fails on an odd number of characters and on a character that is not a
hexadecimal digit. -/
def hexDecode : List Char → Option (List (Fin 256))
  | [] => some []
  | [_] => none
  | a :: b :: rest =>
    match fromHexChar a, fromHexChar b, hexDecode rest with
    | some hi, some lo, some bs => some (hexByte hi lo :: bs)
    | _, _, _ => none

/-- The table `hextable` of `encoding/hex`. -/
def hextable : List Char := "0123456789abcdef".data

/-- The lower-case hexadecimal digit of a value below 16. -/
def toHexChar (d : Fin 16) : Char := hextable.getD d.val '0'

/-- Go `hex.EncodeToString`: two lower-case digits for each byte, high digit first. -/
def hexEncode : List (Fin 256) → List Char
  | [] => []
  | b :: bs =>
    toHexChar ⟨b.val / 16, by omega⟩ :: toHexChar ⟨b.val % 16, by omega⟩ :: hexEncode bs

namespace b3

/-- Modelled from the spec: `b3.ParseTraceID` of go.opencensus.io, which is not under the source
tree. Decoding succeeds exactly on 16 or 32 hexadecimal characters; a 64-bit identifier fills the
low 8 bytes. -/
def ParseTraceID (tid : String) : Option TraceID :=
  if tid.length = 16 ∨ tid.length = 32 then
    match hexDecode tid.data with
    | some b => if h : b.length ≤ 16 then some (Bytes.rightAlign 16 b h) else none
    | none => none
  else none

/-- Modelled from the spec: `b3.ParseSpanID` of go.opencensus.io, which is not under the source
tree. Decoding succeeds exactly on 16 hexadecimal characters. -/
def ParseSpanID (sid : String) : Option SpanID :=
  if sid.length = 16 then
    match hexDecode sid.data with
    | some b => if h : b.length ≤ 8 then some (Bytes.rightAlign 8 b h) else none
    | none => none
  else none

end b3

namespace ochttp

/-- The constant `trace.StatusCodeOK`. -/
def StatusCodeOK : Int := 0

/-- The constant `trace.StatusCodeCancelled`. -/
def StatusCodeCancelled : Int := 1

/-- The constant `trace.StatusCodeUnknown`. -/
def StatusCodeUnknown : Int := 2

/-- The constant `trace.StatusCodeInvalidArgument`. -/
def StatusCodeInvalidArgument : Int := 3

/-- The constant `trace.StatusCodeDeadlineExceeded`. -/
def StatusCodeDeadlineExceeded : Int := 4

/-- The constant `trace.StatusCodeNotFound`. -/
def StatusCodeNotFound : Int := 5

/-- The constant `trace.StatusCodePermissionDenied`. -/
def StatusCodePermissionDenied : Int := 7

/-- The constant `trace.StatusCodeResourceExhausted`. -/
def StatusCodeResourceExhausted : Int := 8

/-- The constant `trace.StatusCodeUnimplemented`. -/
def StatusCodeUnimplemented : Int := 12

/-- The constant `trace.StatusCodeUnavailable`. -/
def StatusCodeUnavailable : Int := 14

/-- The constant `trace.StatusCodeUnauthenticated`. -/
def StatusCodeUnauthenticated : Int := 16

/-- Modelled from the spec: the status code computed by `ochttp.TraceStatus` of
go.opencensus.io, which is not under the source tree: the standard mapping from an HTTP status
code to a trace status code. Codes from 200 to 399 are OK and the others unknown, unless the code
has an entry of its own. -/
def traceStatusCode (httpStatusCode : Int) : Int :=
  if httpStatusCode = 499 then StatusCodeCancelled
  else if httpStatusCode = 400 then StatusCodeInvalidArgument
  else if httpStatusCode = 504 then StatusCodeDeadlineExceeded
  else if httpStatusCode = 404 then StatusCodeNotFound
  else if httpStatusCode = 403 then StatusCodePermissionDenied
  else if httpStatusCode = 401 then StatusCodeUnauthenticated
  else if httpStatusCode = 429 then StatusCodeResourceExhausted
  else if httpStatusCode = 501 then StatusCodeUnimplemented
  else if httpStatusCode = 503 then StatusCodeUnavailable
  else if httpStatusCode = 200 then StatusCodeOK
  else if httpStatusCode < 200 ∨ httpStatusCode ≥ 400 then StatusCodeUnknown
  else StatusCodeOK

/-- Modelled from the spec: `ochttp.TraceStatus` of go.opencensus.io, which is not under the
source tree. The status line is not used; the table `codeToStr` of status messages is a
parameter. -/
def TraceStatus (codeToStr : Int → String) (httpStatusCode : Int) (_statusLine : String) :
    Status :=
  { Code := traceStatusCode httpStatusCode, Message := codeToStr (traceStatusCode httpStatusCode) }

end ochttp

/-- Go `SpanContext.IsSampled`: the lowest bit of the trace options. -/
def SpanContext.IsSampled (sc : SpanContext) : Bool := sc.TraceOptions % 2 == 1

/-- Go `binary.BigEndian.Uint64` of a list of bytes. -/
def bigEndian (b : List (Fin 256)) : Nat := b.foldl (fun acc x => acc * 256 + x.val) 0

/-- Go `uint64(fraction * (1 << 63))` for `0 <= fraction < 1`: the product is exact, the
conversion truncates. -/
def traceIDUpperBound (fraction : Float64) : Nat :=
  if fraction.exponent.val = 0 then 0
  else (2 ^ 52 + fraction.mantissa.val) * 2 ^ fraction.exponent.val / 2 ^ 1012

/-- Modelled from the spec: `trace.ProbabilitySampler` of go.opencensus.io, which is not under
the source tree. A fraction of 1 or more samples every span; otherwise a span is sampled when its
parent is, or when the upper 63 bits of its trace identifier are below the bound. -/
def ProbabilitySampler (fraction : Float64) (p : SamplingParameters) : SamplingDecision :=
  if Float64.le Float64.zero fraction && Float64.le Float64.one fraction then { Sample := true }
  else
    let bound := if Float64.le Float64.zero fraction then traceIDUpperBound fraction else 0
    if p.ParentContext.IsSampled then { Sample := true }
    else { Sample := decide (bigEndian (p.TraceID.bytes.take 8) / 2 < bound) }

/-- The imported packages as modelled above; the rendering of `fmt.Sprintf("%v", x)` and the
table of status messages are parameters. -/
def goLib (sprintv : OtherValue → String) (codeToStr : Int → String) : Lib where
  ParseTraceID := b3.ParseTraceID
  ParseSpanID := b3.ParseSpanID
  TraceStatus := ochttp.TraceStatus codeToStr
  Sprintv := sprintv
  ProbabilitySampler := ProbabilitySampler

/-! ## Specification-side definitions -/

/-- The spans handed to `ExportSpan`, in call order. -/
def exportedSpans (events : List Event) : List SpanData :=
  events.filterMap fun e =>
    match e with
    | Event.ExportSpan span => some span
    | _ => none

/-- The parameters of the calls of the sampler, in call order. -/
def samplerCalls (events : List Event) : List SamplingParameters :=
  events.filterMap fun e =>
    match e with
    | Event.Sampler p => some p
    | _ => none

/-- A text is not an identifier of `n` hexadecimal characters: its length is not `n`, or one of
its characters is not a hexadecimal digit. -/
def notHex (n : Nat) (text : String) : Prop :=
  text.length ≠ n ∨ ∃ c ∈ text.data, fromHexChar c = none

/-- The trace identifier and the span identifier of the record both decode. -/
def decodes (L : Lib) (val : Instance) : Bool :=
  (L.ParseTraceID val.TraceId).isSome && (L.ParseSpanID val.SpanId).isSome

/-- The parameters with which the sampler is asked about a record. -/
def samplingParameters (L : Lib) (val : Instance) : SamplingParameters :=
  let parentContext := (extractParentContext L val).1
  let spanContext := (extractSpanContext L val parentContext).1
  { ParentContext := parentContext
    TraceID := spanContext.TraceID
    SpanID := spanContext.SpanID
    Name := val.SpanName
    HasRemoteParent := true }

/-- The span built for a record that is exported: `buildSpanData` of the record, its parent
context and its span context marked as sampled. -/
def spanOf (L : Lib) (val : Instance) : SpanData :=
  let parentContext := (extractParentContext L val).1
  let spanContext := (extractSpanContext L val parentContext).1
  buildSpanData L val parentContext { spanContext with TraceOptions := 1 }

/-- The decisions of a sampler asked, from state `st` on, about a sequence of parameters. -/
def decisions {σ : Type} (sampler : Sampler σ) : σ → List SamplingParameters → List Bool
  | _, [] => []
  | st, p :: ps => (sampler st p).1.Sample :: decisions sampler (sampler st p).2 ps

/-- The export sequence as the specification words it: of the records that decode, in input
order, those the sampler samples, each turned into its span. -/
def exportSequence {σ : Type} (L : Lib) (sampler : Sampler σ) (st : σ)
    (values : List Instance) : List SpanData :=
  let decodable := values.filter (decodes L)
  let sampled := decisions sampler st (decodable.map (samplingParameters L))
  ((decodable.zip sampled).filter (fun x => x.2)).map (fun x => spanOf L x.1)

/-! ## Example data -/

/-- A rendering of `%v` for the examples: a `bool` prints as `true` or `false`. -/
def exampleSprintv (o : OtherValue) : String := if o.payload = [0] then "false" else "true"

/-- A table of status messages for the examples. -/
def exampleCodeToStr (c : Int) : String :=
  if c = 0 then "OK" else if c = 5 then "NOT_FOUND" else "UNKNOWN"

/-- The imported packages as used in the examples. -/
def exampleLib : Lib := goLib exampleSprintv exampleCodeToStr

/-- A record with a 128-bit trace identifier, no parent, two tags and HTTP status 404. -/
def exampleRecord : Instance where
  Name := "default.tracespan"
  TraceId := "463ac35c9f6413ad48485a3953bb6124"
  SpanId := "a2fb4a1d1a96d312"
  ParentSpanId := ""
  SpanName := "GET /reviews"
  StartTime := ⟨1000⟩
  EndTime := ⟨2500⟩
  SpanTags :=
    ⟨[("http.method", GoValue.string "GET"), ("cached", GoValue.other ⟨"bool", [1]⟩)],
      by decide⟩
  HttpStatusCode := 404

/-- The example record with a trace identifier that is not hexadecimal. -/
def exampleBadRecord : Instance := { exampleRecord with TraceId := "xyz" }

/-- The example record with an `http.status_code` tag of its own and HTTP status 500. -/
def exampleTaggedRecord : Instance :=
  { exampleRecord with
      SpanTags := ⟨[("http.status_code", GoValue.string "teapot")], by decide⟩
      HttpStatusCode := 500 }

/-- The example record without an HTTP status. -/
def exampleZeroRecord : Instance := { exampleRecord with HttpStatusCode := 0 }

/-- The trace identifier written in `exampleRecord`. -/
def exampleTraceID : TraceID :=
  ⟨[70, 58, 195, 92, 159, 100, 19, 173, 72, 72, 90, 57, 83, 187, 97, 36], by decide⟩

/-- The span identifier written in `exampleRecord`. -/
def exampleSpanID : SpanID := ⟨[162, 251, 74, 29, 26, 150, 211, 18], by decide⟩

/-- A builder whose configuration has a trace section with the given sampling probability. -/
def exampleBuilder (p : Float64) : builder := ⟨⟨some ⟨p⟩⟩⟩

/-- An exporter factory that succeeds with an exporter implementing `flusher`. -/
def exampleExporterFunc : Params → Except String Exporter := fun _ => Except.ok ⟨true⟩

/-- The `float64` value 2. -/
def exampleTwo : Float64 := ⟨false, 1024, 0⟩

/-- The `float64` value 0.5. -/
def exampleHalf : Float64 := ⟨false, 1022, 0⟩

/-- A builder whose configuration has no trace section. -/
def exampleBuilderNoTrace : builder := ⟨⟨none⟩⟩

/-- The example record with a 64-bit trace identifier and a parent. -/
def exampleShortRecord : Instance :=
  { exampleRecord with TraceId := "48485a3953bb6124", ParentSpanId := "0020000000000001" }

/-- The example record with a span identifier whose last character is not hexadecimal. -/
def exampleBadSpanRecord : Instance := { exampleRecord with SpanId := "a2fb4a1d1a96d31g" }

/-- A stateful sampler: it samples every second call, starting as its state says. -/
def alternatingSampler : Sampler Bool := fun st _ => (⟨st⟩, !st)

/-- A sampler that samples every span. -/
def alwaysSampler : Sampler Unit := fun st _ => (⟨true⟩, st)

end Trace

/-!
# Kubernetes template (`mixer/adapter/kubernetesenv/template/template_handler_service.pb.go`)

A shallow embedding of the generated protocol-buffer code of `InstanceParam`: `Size`,
`MarshalTo`, `Marshal`, `Unmarshal` and their helpers.

Conventions of the embedding.

* A Go `string` and a Go `[]byte` are lists of bytes; `len` is the length of the list.
* A call ends with a value, with a returned error, or in a run-time panic (an index or a slice
  expression out of range); `Res.outOfFuel` is not a behaviour of the code, it marks the bound
  put on a loop of the embedding.
* `int` is the 64-bit signed integer: sums that can leave its range are wrapped by `wrapInt`,
  conversions from `uint64` are `toInt64`. Indices and sizes on the marshalling side are sums of
  lengths and are kept as natural numbers; the statements bound them below `2 ^ 63`.
-/

namespace Kubernetes

/-! ## Values -/

/-- A Go `string` or `[]byte`. -/
abbrev GoString := List (Fin 256)

/-- A Go `map[string]string` that is not nil. -/
structure StringMap where
  entries : List (GoString × GoString)
  nodupKeys : (entries.map Prod.fst).Nodup
deriving DecidableEq

namespace StringMap

/-- The result of `make(map[string]string)`. -/
def empty : StringMap := ⟨[], List.nodup_nil⟩

/-- The lookup `v, ok := m[k]`. -/
def get? (m : StringMap) (k : GoString) : Option GoString := m.entries.lookup k

/-- The assignment `m[k] = v`. -/
def set (m : StringMap) (k v : GoString) : StringMap :=
  ⟨(k, v) :: m.entries.filter (fun e => e.1 != k), by
    have h := m.nodupKeys
    simp only [List.map_cons, List.nodup_cons, List.mem_map, not_exists, not_and]
    refine ⟨?_, ?_⟩
    · intro e he hk
      have := (List.mem_filter.1 he).2
      simp [hk] at this
    · exact (List.filter_sublist _).map Prod.fst |>.nodup h⟩

end StringMap

/-- Go `InstanceParam`; a nil `AttributeBindings` is `none`. -/
structure InstanceParam where
  SourceUid : GoString
  SourceIp : GoString
  DestinationUid : GoString
  DestinationIp : GoString
  AttributeBindings : Option StringMap
deriving DecidableEq

/-- The zero value `InstanceParam{}`. -/
def InstanceParam.zero : InstanceParam := ⟨[], [], [], [], none⟩

/-- The value `m.AttributeBindings[k]` with its `ok`, also for a nil map. -/
def InstanceParam.binding? (m : InstanceParam) (k : GoString) : Option GoString :=
  match m.AttributeBindings with
  | none => none
  | some mp => mp.get? k

/-- The errors returned by the generated code. -/
inductive Fault where
  | ErrInvalidLength
  | ErrIntOverflow
  | ErrUnexpectedEOF
  | wiretypeEndGroup
  | illegalTag (fieldNum : Int) (wire : Nat)
  | wrongWireType (wireType : Int) (field : String)
  | illegalWireType (wireType : Int)
deriving DecidableEq

/-- How a call ends. -/
inductive Res (α : Type) where
  | ok (a : α)
  | err (e : Fault)
  | panic
  | outOfFuel
deriving DecidableEq

/-- Sequencing: the first call that does not end with a value ends the whole. -/
def Res.bind {α β : Type} (x : Res α) (f : α → Res β) : Res β :=
  match x with
  | Res.ok a => f a
  | Res.err e => Res.err e
  | Res.panic => Res.panic
  | Res.outOfFuel => Res.outOfFuel

instance : Monad Res where
  pure := Res.ok
  bind := Res.bind

/-- The conversion `uint8(x)`. -/
def uint8 (x : Nat) : Fin 256 := ⟨x % 256, Nat.mod_lt x (by decide)⟩

/-- A sum or difference of `int` values, wrapped into the 64-bit signed range. -/
def wrapInt (x : Int) : Int := (x + 2 ^ 63) % 2 ^ 64 - 2 ^ 63

/-- The conversion `int(x)` of a `uint64`. -/
def toInt64 (x : Nat) : Int := wrapInt (x % 2 ^ 64 : Nat)

/-- The conversion `int32(x)` of a `uint64`. -/
def toInt32 (x : Nat) : Int := ((x % 2 ^ 32 : Nat) + 2 ^ 31) % 2 ^ 32 - 2 ^ 31

/-- The index expression `dAtA[i]`: it panics out of range. -/
def index (dAtA : List (Fin 256)) (i : Int) : Res (Fin 256) :=
  if 0 ≤ i then
    match dAtA[i.toNat]? with
    | some b => Res.ok b
    | none => Res.panic
  else Res.panic

/-- The slice expression `dAtA[lo:hi]` of a slice whose capacity is its length: it panics unless
`0 <= lo <= hi <= len(dAtA)`. -/
def slice (dAtA : List (Fin 256)) (lo hi : Int) : Res (List (Fin 256)) :=
  if 0 ≤ lo ∧ lo ≤ hi ∧ hi ≤ dAtA.length then
    Res.ok ((dAtA.drop lo.toNat).take (hi - lo).toNat)
  else Res.panic

/-- The assignment `dAtA[i] = b`: it panics out of range. -/
def putByte (dAtA : List (Fin 256)) (i : Nat) (b : Fin 256) : Res (List (Fin 256)) :=
  if i < dAtA.length then Res.ok (dAtA.set i b) else Res.panic

/-- The statement `n := copy(dAtA[i:], s)`: the slice expression panics when `i` is beyond the
length, `copy` writes as many bytes as fit and returns their number. -/
def copyAt (dAtA : List (Fin 256)) (i : Nat) (s : GoString) : Res (List (Fin 256) × Nat) :=
  if i ≤ dAtA.length then
    let n := min (dAtA.length - i) s.length
    Res.ok (dAtA.take i ++ s.take n ++ dAtA.drop (i + n), n)
  else Res.panic

/-! ## Marshalling -/

/-- The loop of `sovTemplateHandlerService`, `n` being the count so far. -/
def sovLoop : Nat → Nat → Nat → Res Nat
  | 0, _, _ => Res.outOfFuel
  | fuel + 1, x, n =>
    let n := n + 1
    let x := x >>> 7
    if x = 0 then Res.ok n else sovLoop fuel x n

/-- Go `sovTemplateHandlerService`, on a `uint64`: the loop runs at most 10 times, the value
of a run that would need more is 0. -/
def sovTemplateHandlerService (x : Nat) : Nat :=
  match sovLoop 10 (x % 2 ^ 64) 0 with
  | Res.ok n => n
  | _ => 0

/-- The loop of `encodeVarintTemplateHandlerService`. -/
def encodeVarintLoop : Nat → List (Fin 256) → Nat → Nat → Res (List (Fin 256) × Nat)
  | 0, _, _, _ => Res.outOfFuel
  | fuel + 1, dAtA, offset, v =>
    if v ≥ 1 <<< 7 then
      (putByte dAtA offset (uint8 (v &&& 0x7f ||| 0x80))).bind fun dAtA =>
        encodeVarintLoop fuel dAtA (offset + 1) (v >>> 7)
    else
      (putByte dAtA offset (uint8 v)).bind fun dAtA => Res.ok (dAtA, offset + 1)

/-- Go `encodeVarintTemplateHandlerService`, on a `uint64`. -/
def encodeVarintTemplateHandlerService (dAtA : List (Fin 256)) (offset : Nat) (v : Nat) :
    Res (List (Fin 256) × Nat) :=
  encodeVarintLoop 10 dAtA offset (v % 2 ^ 64)

/-- A block of `MarshalTo` for a string field: under `len(s) > 0`, the tag byte, the length as
a varint, and the bytes of the string. -/
def marshalString (tag : Fin 256) (s : GoString) (st : List (Fin 256) × Nat) :
    Res (List (Fin 256) × Nat) :=
  if s.length > 0 then
    (putByte st.1 st.2 tag).bind fun dAtA =>
      (encodeVarintTemplateHandlerService dAtA (st.2 + 1) s.length).bind fun r =>
        (copyAt r.1 r.2 s).bind fun c => Res.ok (c.1, r.2 + c.2)
  else Res.ok st

/-- The size `mapSize` of a map entry, as computed in `MarshalTo` and in `Size`. -/
def mapEntrySize (k v : GoString) : Nat :=
  1 + k.length + sovTemplateHandlerService k.length + 1 + v.length
    + sovTemplateHandlerService v.length

/-- The body of the loop of `MarshalTo` over the keys of `AttributeBindings`. -/
def marshalEntry (mp : StringMap) (st : List (Fin 256) × Nat) (k : GoString) :
    Res (List (Fin 256) × Nat) :=
  (putByte st.1 st.2 0x82).bind fun dAtA =>
  (putByte dAtA (st.2 + 1) 0xd3).bind fun dAtA =>
  (putByte dAtA (st.2 + 2) 0xe4).bind fun dAtA =>
  (putByte dAtA (st.2 + 3) 0x93).bind fun dAtA =>
  (putByte dAtA (st.2 + 4) 0x2).bind fun dAtA =>
  let v := (mp.get? k).getD []
  let mapSize := mapEntrySize k v
  (encodeVarintTemplateHandlerService dAtA (st.2 + 5) mapSize).bind fun r =>
  (putByte r.1 r.2 0xa).bind fun dAtA =>
  (encodeVarintTemplateHandlerService dAtA (r.2 + 1) k.length).bind fun r =>
  (copyAt r.1 r.2 k).bind fun c =>
  (putByte c.1 (r.2 + c.2) 0x12).bind fun dAtA =>
  (encodeVarintTemplateHandlerService dAtA (r.2 + c.2 + 1) v.length).bind fun r =>
  (copyAt r.1 r.2 v).bind fun c => Res.ok (c.1, r.2 + c.2)

/-- The loop `for k, _ := range m.AttributeBindings` of `MarshalTo`, over the keys in the order
of the iteration. -/
def marshalEntries (mp : StringMap) :
    List GoString → List (Fin 256) × Nat → Res (List (Fin 256) × Nat)
  | [], st => Res.ok st
  | k :: ks, st => (marshalEntry mp st k).bind fun st => marshalEntries mp ks st

/-- Go `MarshalTo`: the buffer after the call and the returned count (the returned error is
always nil). -/
def MarshalTo (m : InstanceParam) (dAtA : List (Fin 256)) : Res (List (Fin 256) × Nat) :=
  (marshalString 0xa m.SourceUid (dAtA, 0)).bind fun st =>
  (marshalString 0x12 m.SourceIp st).bind fun st =>
  (marshalString 0x1a m.DestinationUid st).bind fun st =>
  (marshalString 0x22 m.DestinationIp st).bind fun st =>
  match m.AttributeBindings with
  | none => Res.ok st
  | some mp =>
    if mp.entries.length > 0 then marshalEntries mp (mp.entries.map Prod.fst) st
    else Res.ok st

/-- The contribution of a string field to `Size`. -/
def sizeString (s : GoString) : Nat :=
  let l := s.length
  if l > 0 then 1 + l + sovTemplateHandlerService l else 0

/-- The contribution of a map entry to `Size`. -/
def sizeEntry (k v : GoString) : Nat :=
  let mapEntrySize := mapEntrySize k v
  mapEntrySize + 5 + sovTemplateHandlerService mapEntrySize

/-- Go `Size`. -/
def Size (m : InstanceParam) : Nat :=
  let n := sizeString m.SourceUid
  let n := n + sizeString m.SourceIp
  let n := n + sizeString m.DestinationUid
  let n := n + sizeString m.DestinationIp
  match m.AttributeBindings with
  | none => n
  | some mp =>
    if mp.entries.length > 0 then mp.entries.foldl (fun n kv => n + sizeEntry kv.1 kv.2) n
    else n

/-- Go `Marshal`: a buffer of `Size` bytes is filled by `MarshalTo` and cut at the count
returned. -/
def Marshal (m : InstanceParam) : Res (List (Fin 256)) :=
  let size := Size m
  let dAtA : List (Fin 256) := List.replicate size 0
  (MarshalTo m dAtA).bind fun r => slice r.1 0 r.2

/-! ## Unmarshalling -/

/-- The loop that reads a varint into a `uint64` (`wire`, `stringLen`, ...), from byte `iNdEx`
on: the value and the index after it. `l` is `len(dAtA)`; the index is below `l` when it is
incremented, so the increment does not overflow. -/
def readVarint (dAtA : List (Fin 256)) :
    Nat → Nat → Int → Nat → Res (Nat × Int)
  | 0, _, _, _ => Res.outOfFuel
  | fuel + 1, shift, iNdEx, wire =>
    if shift ≥ 64 then Res.err Fault.ErrIntOverflow
    else if iNdEx ≥ (dAtA.length : Int) then Res.err Fault.ErrUnexpectedEOF
    else
      (index dAtA iNdEx).bind fun b =>
        let iNdEx := iNdEx + 1
        let wire := wire ||| ((b.val &&& 0x7F) <<< shift) % 2 ^ 64
        if b.val < 0x80 then Res.ok (wire, iNdEx)
        else readVarint dAtA fuel (shift + 7) iNdEx wire

/-- The loop that reads a varint into an `int` (`msglen`, `length`): the bits are those of the
`uint64` read by `readVarint`, taken as a signed value. -/
def readVarintInt (dAtA : List (Fin 256)) (iNdEx : Int) : Res (Int × Int) :=
  (readVarint dAtA 11 0 iNdEx 0).bind fun r => Res.ok (toInt64 r.1, r.2)

/-- The loop of `skipTemplateHandlerService` that passes over a varint (wire type 0). -/
def skipVarint (dAtA : List (Fin 256)) : Nat → Nat → Int → Res Int
  | 0, _, _ => Res.outOfFuel
  | fuel + 1, shift, iNdEx =>
    if shift ≥ 64 then Res.err Fault.ErrIntOverflow
    else if iNdEx ≥ (dAtA.length : Int) then Res.err Fault.ErrUnexpectedEOF
    else
      let iNdEx := iNdEx + 1
      (index dAtA (iNdEx - 1)).bind fun b =>
        if b.val < 0x80 then Res.ok iNdEx else skipVarint dAtA fuel (shift + 7) iNdEx

/-- Go `skipTemplateHandlerService` (`skipFrom false`) and the loop of its wire type 3
(`skipFrom true`, from index `iNdEx` on). Every path through the body of the outer loop returns,
so that loop runs at most once; with an empty slice the function reaches
`panic("unreachable")`. -/
def skipFrom : Nat → Bool → List (Fin 256) → Int → Res Int
  | 0, _, _, _ => Res.outOfFuel
  | fuel + 1, false, dAtA, _ =>
    if (0 : Int) < dAtA.length then
      (readVarint dAtA 11 0 0 0).bind fun r =>
        let iNdEx := r.2
        let wireType := toInt64 (r.1 &&& 0x7)
        if wireType = 0 then skipVarint dAtA 11 0 iNdEx
        else if wireType = 1 then Res.ok (iNdEx + 8)
        else if wireType = 2 then
          (readVarintInt dAtA iNdEx).bind fun r =>
            let length := r.1
            let iNdEx := wrapInt (r.2 + length)
            if length < 0 then Res.err Fault.ErrInvalidLength else Res.ok iNdEx
        else if wireType = 3 then skipFrom fuel true dAtA iNdEx
        else if wireType = 4 then Res.ok iNdEx
        else if wireType = 5 then Res.ok (iNdEx + 4)
        else Res.err (Fault.illegalWireType wireType)
    else Res.panic
  | fuel + 1, true, dAtA, iNdEx =>
    let start := iNdEx
    (readVarint dAtA 11 0 iNdEx 0).bind fun r =>
      let iNdEx := r.2
      let innerWireType := toInt64 (r.1 &&& 0x7)
      if innerWireType = 4 then Res.ok iNdEx
      else
        (slice dAtA start dAtA.length).bind fun sub =>
          (skipFrom fuel false sub 0).bind fun next =>
            skipFrom fuel true dAtA (wrapInt (start + next))

/-- Go `skipTemplateHandlerService`. -/
def skipTemplateHandlerService (dAtA : List (Fin 256)) : Res Int :=
  skipFrom (2 * dAtA.length + 2) false dAtA 0

/-- The block of `Unmarshal` that reads a length-delimited string from index `iNdEx`: the string
and the index after it. -/
def readString (dAtA : List (Fin 256)) (iNdEx : Int) : Res (GoString × Int) :=
  (readVarint dAtA 11 0 iNdEx 0).bind fun r =>
    let iNdEx := r.2
    let intStringLen := toInt64 r.1
    if intStringLen < 0 then Res.err Fault.ErrInvalidLength
    else
      let postIndex := wrapInt (iNdEx + intStringLen)
      if postIndex > (dAtA.length : Int) then Res.err Fault.ErrUnexpectedEOF
      else (slice dAtA iNdEx postIndex).bind fun s => Res.ok (s, postIndex)

/-- The block of `Unmarshal` that skips an unknown field starting at `iNdEx`, `limit` being `l`
or `postIndex`: the index after the field. -/
def skipField (dAtA : List (Fin 256)) (iNdEx limit : Int) : Res Int :=
  (slice dAtA iNdEx dAtA.length).bind fun sub =>
    (skipTemplateHandlerService sub).bind fun skippy =>
      if skippy < 0 then Res.err Fault.ErrInvalidLength
      else if wrapInt (iNdEx + skippy) > limit then Res.err Fault.ErrUnexpectedEOF
      else Res.ok (wrapInt (iNdEx + skippy))

/-- The loop `for iNdEx < postIndex` of `Unmarshal` over the fields of a map entry: the key and
the value read. -/
def entryLoop (dAtA : List (Fin 256)) (postIndex : Int) :
    Nat → Int → GoString → GoString → Res (GoString × GoString)
  | 0, _, _, _ => Res.outOfFuel
  | fuel + 1, iNdEx, mapkey, mapvalue =>
    if iNdEx < postIndex then
      let entryPreIndex := iNdEx
      (readVarint dAtA 11 0 iNdEx 0).bind fun r =>
        let iNdEx := r.2
        let fieldNum := toInt32 (r.1 >>> 3)
        if fieldNum = 1 then
          (readString dAtA iNdEx).bind fun s => entryLoop dAtA postIndex fuel s.2 s.1 mapvalue
        else if fieldNum = 2 then
          (readString dAtA iNdEx).bind fun s => entryLoop dAtA postIndex fuel s.2 mapkey s.1
        else
          (skipField dAtA entryPreIndex postIndex).bind fun iNdEx =>
            entryLoop dAtA postIndex fuel iNdEx mapkey mapvalue
    else Res.ok (mapkey, mapvalue)

/-- The body of the loop `for iNdEx < l` of `Unmarshal`: one field is read from index `iNdEx`
into the message; the message and the index after the field. -/
def unmarshalField (dAtA : List (Fin 256)) (m : InstanceParam) (iNdEx : Int) :
    Res (InstanceParam × Int) :=
  let preIndex := iNdEx
  (readVarint dAtA 11 0 iNdEx 0).bind fun r =>
    let wire := r.1
    let iNdEx := r.2
    let fieldNum := toInt32 (wire >>> 3)
    let wireType := toInt64 (wire &&& 0x7)
    if wireType = 4 then Res.err Fault.wiretypeEndGroup
    else if fieldNum ≤ 0 then Res.err (Fault.illegalTag fieldNum wire)
    else if fieldNum = 1 then
      if wireType ≠ 2 then Res.err (Fault.wrongWireType wireType "SourceUid")
      else (readString dAtA iNdEx).bind fun s => Res.ok ({ m with SourceUid := s.1 }, s.2)
    else if fieldNum = 2 then
      if wireType ≠ 2 then Res.err (Fault.wrongWireType wireType "SourceIp")
      else (readString dAtA iNdEx).bind fun s => Res.ok ({ m with SourceIp := s.1 }, s.2)
    else if fieldNum = 3 then
      if wireType ≠ 2 then Res.err (Fault.wrongWireType wireType "DestinationUid")
      else (readString dAtA iNdEx).bind fun s => Res.ok ({ m with DestinationUid := s.1 }, s.2)
    else if fieldNum = 4 then
      if wireType ≠ 2 then Res.err (Fault.wrongWireType wireType "DestinationIp")
      else (readString dAtA iNdEx).bind fun s => Res.ok ({ m with DestinationIp := s.1 }, s.2)
    else if fieldNum = 72295728 then
      if wireType ≠ 2 then Res.err (Fault.wrongWireType wireType "AttributeBindings")
      else
        (readVarintInt dAtA iNdEx).bind fun r =>
          let msglen := r.1
          let iNdEx := r.2
          if msglen < 0 then Res.err Fault.ErrInvalidLength
          else
            let postIndex := wrapInt (iNdEx + msglen)
            if postIndex > (dAtA.length : Int) then Res.err Fault.ErrUnexpectedEOF
            else
              let bindings := m.AttributeBindings.getD StringMap.empty
              (entryLoop dAtA postIndex (dAtA.length + 1) iNdEx [] []).bind fun kv =>
                Res.ok ({ m with AttributeBindings := some (bindings.set kv.1 kv.2) }, postIndex)
    else (skipField dAtA preIndex dAtA.length).bind fun iNdEx => Res.ok (m, iNdEx)

/-- The loop `for iNdEx < l` of `Unmarshal` and the statements after it. -/
def unmarshalLoop (dAtA : List (Fin 256)) : Nat → InstanceParam → Int → Res InstanceParam
  | 0, _, _ => Res.outOfFuel
  | fuel + 1, m, iNdEx =>
    if iNdEx < (dAtA.length : Int) then
      (unmarshalField dAtA m iNdEx).bind fun r => unmarshalLoop dAtA fuel r.1 r.2
    else if iNdEx > (dAtA.length : Int) then Res.err Fault.ErrUnexpectedEOF
    else Res.ok m

/-- Go `Unmarshal` on the message `m`: the message after the call when the returned error is
nil. -/
def Unmarshal (m : InstanceParam) (dAtA : List (Fin 256)) : Res InstanceParam :=
  unmarshalLoop dAtA (dAtA.length + 2) m 0

/-! ## Specification-side definitions -/

/-- The buffer `d` with the bytes `a` written from index `i` on. -/
def splice (d : List (Fin 256)) (i : Nat) (a : List (Fin 256)) : List (Fin 256) :=
  d.take i ++ a ++ d.drop (i + a.length)

/-- The statements `dAtA[i] = b; i++` on the buffer and index `st`. -/
def wByte (b : Fin 256) (st : List (Fin 256) × Nat) : Res (List (Fin 256) × Nat) :=
  (putByte st.1 st.2 b).bind fun d => Res.ok (d, st.2 + 1)

/-- The statement `i = encodeVarintTemplateHandlerService(dAtA, i, v)`. -/
def wVarint (v : Nat) (st : List (Fin 256) × Nat) : Res (List (Fin 256) × Nat) :=
  encodeVarintTemplateHandlerService st.1 st.2 v

/-- The statement `i += copy(dAtA[i:], s)`. -/
def wCopy (s : GoString) (st : List (Fin 256) × Nat) : Res (List (Fin 256) × Nat) :=
  (copyAt st.1 st.2 s).bind fun c => Res.ok (c.1, st.2 + c.2)

/-- A sequence of statements writes the bytes `a`: from any index `i` of a buffer with room for
them, it ends with `a` written from `i` on and the index moved behind them. -/
def Writes (f : List (Fin 256) × Nat → Res (List (Fin 256) × Nat)) (a : List (Fin 256)) : Prop :=
  ∀ d i, i + a.length ≤ d.length → f (d, i) = Res.ok (splice d i a, i + a.length)

/-- The bytes of the varint of `v`, low seven bits first, in at most `fuel` bytes. -/
def varintBytes : Nat → Nat → List (Fin 256)
  | 0, _ => []
  | fuel + 1, v =>
    if v ≥ 128 then uint8 (v % 128 + 128) :: varintBytes fuel (v / 128) else [uint8 v]

/-- The varint of a `uint64`. -/
def varint (v : Nat) : List (Fin 256) := varintBytes 10 (v % 2 ^ 64)

/-- The encoding of a string field: nothing for the empty string, otherwise the tag, the length
and the bytes. -/
def encString (tag : Fin 256) (s : GoString) : List (Fin 256) :=
  if s.length > 0 then tag :: (varint s.length ++ s) else []

/-- The encoding of a map entry: the tag of field 72295728, the size of the entry, the key as
field 1 and the value as field 2. -/
def encEntry (k v : GoString) : List (Fin 256) :=
  [0x82, 0xd3, 0xe4, 0x93, 0x2] ++ (varint (mapEntrySize k v) ++
    (0xa :: (varint k.length ++ k) ++ (0x12 :: (varint v.length ++ v))))

/-- The encoding of the entries of a map, in the order of the list. -/
def encEntries : List (GoString × GoString) → List (Fin 256)
  | [] => []
  | kv :: rest => encEntry kv.1 kv.2 ++ encEntries rest

/-- The entries written by `MarshalTo`: none for a nil map. -/
def bindingsOf (m : InstanceParam) : List (GoString × GoString) :=
  match m.AttributeBindings with
  | none => []
  | some mp => mp.entries

/-- The wire encoding of a message. -/
def encode (m : InstanceParam) : List (Fin 256) :=
  encString 0xa m.SourceUid ++ (encString 0x12 m.SourceIp ++ (encString 0x1a m.DestinationUid
    ++ (encString 0x22 m.DestinationIp ++ encEntries (bindingsOf m))))

/-- A field on the wire, as `MarshalTo` writes it. -/
inductive Item where
  | SourceUid (s : GoString)
  | SourceIp (s : GoString)
  | DestinationUid (s : GoString)
  | DestinationIp (s : GoString)
  | binding (k v : GoString)

/-- The bytes of a field. -/
def Item.encode : Item → List (Fin 256)
  | Item.SourceUid s => 0xa :: (varint s.length ++ s)
  | Item.SourceIp s => 0x12 :: (varint s.length ++ s)
  | Item.DestinationUid s => 0x1a :: (varint s.length ++ s)
  | Item.DestinationIp s => 0x22 :: (varint s.length ++ s)
  | Item.binding k v => encEntry k v

/-- The message after the field is read into it. -/
def Item.apply (m : InstanceParam) : Item → InstanceParam
  | Item.SourceUid s => { m with SourceUid := s }
  | Item.SourceIp s => { m with SourceIp := s }
  | Item.DestinationUid s => { m with DestinationUid := s }
  | Item.DestinationIp s => { m with DestinationIp := s }
  | Item.binding k v =>
    { m with AttributeBindings := some ((m.AttributeBindings.getD StringMap.empty).set k v) }

/-- The bytes of a sequence of fields. -/
def encodeItems : List Item → List (Fin 256)
  | [] => []
  | it :: rest => it.encode ++ encodeItems rest

/-- The fields of a message in the order `MarshalTo` writes them: the non-empty strings, then
the bindings. -/
def itemsOf (m : InstanceParam) : List Item :=
  (if m.SourceUid.length > 0 then [Item.SourceUid m.SourceUid] else []) ++
    ((if m.SourceIp.length > 0 then [Item.SourceIp m.SourceIp] else []) ++
      ((if m.DestinationUid.length > 0 then [Item.DestinationUid m.DestinationUid] else []) ++
        ((if m.DestinationIp.length > 0 then [Item.DestinationIp m.DestinationIp] else []) ++
          (bindingsOf m).map fun kv => Item.binding kv.1 kv.2)))

/-! ## Example data -/

/-- A message with two string fields and two bindings, one of them empty. -/
def exampleParam : InstanceParam :=
  ⟨[107, 56, 115], [], [112, 111, 100], [],
    some ⟨[([115, 114, 99], [36, 111, 117, 116]), ([], [])], by decide⟩⟩

/-- The field 1 with a length of `2 ^ 63 - 1`: tag `0x0a`, then the varint `ff ... ff 7f`. -/
def overflowInput : List (Fin 256) :=
  [0x0a, 0xff, 0xff, 0xff, 0xff, 0xff, 0xff, 0xff, 0xff, 0x7f]

end Kubernetes

namespace Trace

/-! ## Maps -/

namespace GoMap

variable {V : Type}

theorem lookup_filter_ne (l : List (String × V)) (k k' : String) (h : k' ≠ k) :
    (l.filter (fun e => e.1 != k)).lookup k' = l.lookup k' := by
  induction l with
  | nil => rfl
  | cons e t ih =>
    obtain ⟨a, b⟩ := e
    by_cases hak : a = k
    · subst hak
      have h1 : (k' == a) = false := by simpa using h
      simp [List.filter_cons, List.lookup_cons, h1, ih]
    · have h2 : (a != k) = true := by simpa using hak
      simp only [List.filter_cons, h2, if_true, List.lookup_cons, ih]

theorem get?_set_self (m : GoMap V) (k : String) (v : V) : (m.set k v).get? k = some v := by
  simp [get?, set, List.lookup_cons]

theorem get?_set_ne (m : GoMap V) (k k' : String) (v : V) (h : k' ≠ k) :
    (m.set k v).get? k' = m.get? k' := by
  have h1 : (k' == k) = false := by simpa using h
  simp [get?, set, List.lookup_cons, h1, lookup_filter_ne _ _ _ h]

theorem lookup_eq_none_iff (l : List (String × V)) (k : String) :
    l.lookup k = none ↔ k ∉ l.map Prod.fst := by
  induction l with
  | nil => simp
  | cons e t ih =>
    obtain ⟨a, b⟩ := e
    by_cases hak : k = a
    · subst hak
      simp [List.lookup_cons]
    · have h1 : (k == a) = false := by simpa using hak
      simp [List.lookup_cons, h1, ih, hak]

theorem mem_keys_iff (m : GoMap V) (k : String) : k ∈ m.keys ↔ (m.get? k).isSome = true := by
  have h := lookup_eq_none_iff m.entries k
  unfold keys get?
  cases hl : m.entries.lookup k with
  | none => simpa [hl] using h
  | some v =>
    rw [hl] at h
    simp only [Option.isSome_some, iff_true]
    by_contra hc
    exact absurd (h.2 hc) (by simp)

end GoMap

theorem foldl_set_get? (L : Lib) (l : List (String × GoValue)) (hl : (l.map Prod.fst).Nodup)
    (acc : GoMap GoValue) (k : String) :
    (l.foldl (fun attributes kv => attributes.set kv.1 (coerceTag L kv.2)) acc).get? k =
      match l.lookup k with
      | some v => some (coerceTag L v)
      | none => acc.get? k := by
  induction l generalizing acc with
  | nil => rfl
  | cons e t ih =>
    obtain ⟨a, b⟩ := e
    simp only [List.map_cons, List.nodup_cons] at hl
    rw [List.foldl_cons, ih hl.2]
    by_cases hak : k = a
    · subst hak
      have hn : t.lookup k = none := (GoMap.lookup_eq_none_iff t k).2 hl.1
      simp [List.lookup_cons, hn, GoMap.get?_set_self]
    · have h1 : (k == a) = false := by simpa using hak
      simp only [List.lookup_cons, h1]
      cases t.lookup k with
      | none => simp [GoMap.get?_set_ne _ _ _ _ hak]
      | some v => rfl

/-- After the first loop of `buildSpanData`, every key holds the coerced value of its tag. -/
theorem tagAttributes_get? (L : Lib) (tags : GoMap GoValue) (k : String) :
    (tagAttributes L tags).get? k = (tags.get? k).map (coerceTag L) := by
  unfold tagAttributes
  rw [foldl_set_get? L tags.entries tags.nodupKeys GoMap.empty k]
  unfold GoMap.get?
  cases tags.entries.lookup k with
  | none => rfl
  | some v => rfl

/-! ## One iteration of the loop -/

theorem handleOne_skip {σ : Type} (L : Lib) (sampler : Sampler σ) (s : LoopState σ)
    (val : Instance) (h : decodes L val = false) : handleOne L sampler s val = s := by
  unfold decodes at h
  cases ht : L.ParseTraceID val.TraceId with
  | none => simp [handleOne, extractParentContext, ht]
  | some t =>
    cases hs : L.ParseSpanID val.SpanId with
    | none => simp [handleOne, extractParentContext, extractSpanContext, ht, hs]
    | some sp => simp [ht, hs] at h

theorem handleOne_decoded {σ : Type} (L : Lib) (sampler : Sampler σ) (s : LoopState σ)
    (val : Instance) (h : decodes L val = true) :
    handleOne L sampler s val =
      if (sampler s.samplerState (samplingParameters L val)).1.Sample = true then
        { numExported := s.numExported + 1
          samplerState := (sampler s.samplerState (samplingParameters L val)).2
          events := s.events ++ [Event.Sampler (samplingParameters L val)]
            ++ [Event.ExportSpan (spanOf L val)] }
      else
        { numExported := s.numExported
          samplerState := (sampler s.samplerState (samplingParameters L val)).2
          events := s.events ++ [Event.Sampler (samplingParameters L val)] } := by
  unfold decodes at h
  cases ht : L.ParseTraceID val.TraceId with
  | none => simp [ht] at h
  | some t =>
    cases hs : L.ParseSpanID val.SpanId with
    | none => simp [hs] at h
    | some sp =>
      simp only [handleOne, samplingParameters, spanOf, extractParentContext,
        extractSpanContext, ht, hs]
      generalize sampler s.samplerState _ = r
      cases hd : r.1.Sample <;> simp [SpanContext.zero]

/-! ## `buildSpanData`: attributes and status -/

theorem buildSpanData_attributes (L : Lib) (val : Instance) (pc sc : SpanContext) :
    (buildSpanData L val pc sc).Attributes =
      if val.HttpStatusCode > 0 then
        (match (tagAttributes L val.SpanTags).get? attrHTTPStatusCode with
          | some _ => tagAttributes L val.SpanTags
          | none =>
            (tagAttributes L val.SpanTags).set attrHTTPStatusCode
              (GoValue.int64 val.HttpStatusCode))
      else tagAttributes L val.SpanTags := by
  unfold buildSpanData
  by_cases h : val.HttpStatusCode > 0 <;> simp [h]

theorem buildSpanData_status (L : Lib) (val : Instance) (pc sc : SpanContext) :
    (buildSpanData L val pc sc).Status =
      if val.HttpStatusCode > 0 then L.TraceStatus val.HttpStatusCode "" else Status.zero := by
  unfold buildSpanData
  by_cases h : val.HttpStatusCode > 0 <;> simp [h]

/-- C7: for a record whose HTTP status code `c` is greater than 0 and whose tags have no
`http.status_code` key, the attributes built by `buildSpanData` map `http.status_code` to the
integer `c`, and under every other key they hold exactly the coerced value of the tag with that
key (and nothing where there is no such tag). -/
theorem buildSpanData_adds_status_code_attribute (L : Lib) (val : Instance)
    (pc sc : SpanContext) (hc : val.HttpStatusCode > 0)
    (hk : val.SpanTags.get? attrHTTPStatusCode = none) :
    (buildSpanData L val pc sc).Attributes.get? attrHTTPStatusCode
        = some (GoValue.int64 val.HttpStatusCode) ∧
      ∀ k, k ≠ attrHTTPStatusCode →
        (buildSpanData L val pc sc).Attributes.get? k
          = (val.SpanTags.get? k).map (coerceTag L) := by
  have hn : (tagAttributes L val.SpanTags).get? attrHTTPStatusCode = none := by
    rw [tagAttributes_get?, hk]; rfl
  rw [buildSpanData_attributes, if_pos hc, hn]
  refine ⟨GoMap.get?_set_self _ _ _, ?_⟩
  intro k hne
  show ((tagAttributes L val.SpanTags).set attrHTTPStatusCode _).get? k = _
  rw [GoMap.get?_set_ne _ _ _ _ hne, tagAttributes_get?]

/-- C8: for a record whose tags contain an `http.status_code` key, `buildSpanData` keeps the
coerced tag value under that key, whatever the HTTP status code of the record is. -/
theorem buildSpanData_keeps_status_code_tag (L : Lib) (val : Instance) (pc sc : SpanContext)
    (v : GoValue) (hk : val.SpanTags.get? attrHTTPStatusCode = some v) :
    (buildSpanData L val pc sc).Attributes.get? attrHTTPStatusCode = some (coerceTag L v) := by
  have hs : (tagAttributes L val.SpanTags).get? attrHTTPStatusCode = some (coerceTag L v) := by
    rw [tagAttributes_get?, hk]; rfl
  rw [buildSpanData_attributes]
  by_cases hc : val.HttpStatusCode > 0
  · rw [if_pos hc, hs]
    exact hs
  · rw [if_neg hc]
    exact hs

/-- C9: for a record whose HTTP status code is 0, the span built by `buildSpanData` has the zero
status (code 0, empty message), its attribute keys are exactly the tag keys of the record, and
each attribute is the coerced tag: no `http.status_code` attribute is added. -/
theorem buildSpanData_zero_status_code (L : Lib) (val : Instance) (pc sc : SpanContext)
    (hc : val.HttpStatusCode = 0) :
    (buildSpanData L val pc sc).Status = Status.zero ∧
      (buildSpanData L val pc sc).Status.Code = 0 ∧
      (buildSpanData L val pc sc).Status.Message = "" ∧
      (∀ k, k ∈ (buildSpanData L val pc sc).Attributes.keys ↔ k ∈ val.SpanTags.keys) ∧
      (∀ k, (buildSpanData L val pc sc).Attributes.get? k
          = (val.SpanTags.get? k).map (coerceTag L)) ∧
      (val.SpanTags.get? attrHTTPStatusCode = none →
        (buildSpanData L val pc sc).Attributes.get? attrHTTPStatusCode = none) := by
  have hn : ¬ val.HttpStatusCode > 0 := by omega
  have hs : (buildSpanData L val pc sc).Status = Status.zero := by
    rw [buildSpanData_status, if_neg hn]
  have ha : ∀ k, (buildSpanData L val pc sc).Attributes.get? k
      = (val.SpanTags.get? k).map (coerceTag L) := by
    intro k
    rw [buildSpanData_attributes, if_neg hn, tagAttributes_get?]
  refine ⟨hs, by rw [hs]; rfl, by rw [hs]; rfl, ?_, ha, ?_⟩
  · intro k
    rw [GoMap.mem_keys_iff, GoMap.mem_keys_iff, ha k]
    cases val.SpanTags.get? k <;> simp
  · intro hk
    rw [ha, hk]; rfl

theorem ite_ne_of_ne {α : Type} (p : Prop) [Decidable p] (a b z : α) (ha : a ≠ z)
    (hb : b ≠ z) : (if p then a else b) ≠ z := by
  by_cases h : p
  · rw [if_pos h]; exact ha
  · rw [if_neg h]; exact hb

theorem traceStatusCode_2xx (c : Int) (h1 : 200 ≤ c) (h2 : c ≤ 299) :
    ochttp.traceStatusCode c = ochttp.StatusCodeOK := by
  unfold ochttp.traceStatusCode
  iterate 9 rw [if_neg (by omega)]
  by_cases h : c = 200
  · rw [if_pos h]
  · rw [if_neg h, if_neg (by omega)]

theorem traceStatusCode_4xx_5xx (c : Int) (h1 : 400 ≤ c) (h2 : c ≤ 599) :
    ochttp.traceStatusCode c ≠ ochttp.StatusCodeOK := by
  unfold ochttp.traceStatusCode
  iterate 9 (refine ite_ne_of_ne _ _ _ _ (by decide) ?_)
  rw [if_neg (by omega), if_pos (Or.inr h1)]
  decide

/-- C10: for a record whose HTTP status code `c` is greater than 0, the status of the span built
by `buildSpanData` is `TraceStatus c ""`; with the standard mapping of `ochttp` every code from
200 to 299 gives the OK code, every code from 400 to 599 gives a code other than OK, and 404
gives the not-found code. -/
theorem buildSpanData_status_of_positive_code (L : Lib) (sprintv : OtherValue → String)
    (codeToStr : Int → String) (val : Instance) (pc sc : SpanContext)
    (hc : val.HttpStatusCode > 0) :
    (buildSpanData L val pc sc).Status = L.TraceStatus val.HttpStatusCode "" ∧
      (buildSpanData (goLib sprintv codeToStr) val pc sc).Status
        = ochttp.TraceStatus codeToStr val.HttpStatusCode "" ∧
      (200 ≤ val.HttpStatusCode → val.HttpStatusCode ≤ 299 →
        (buildSpanData (goLib sprintv codeToStr) val pc sc).Status.Code
          = ochttp.StatusCodeOK) ∧
      (400 ≤ val.HttpStatusCode → val.HttpStatusCode ≤ 599 →
        (buildSpanData (goLib sprintv codeToStr) val pc sc).Status.Code
          ≠ ochttp.StatusCodeOK) ∧
      (val.HttpStatusCode = 404 →
        (buildSpanData (goLib sprintv codeToStr) val pc sc).Status.Code
          = ochttp.StatusCodeNotFound) := by
  have hg : (buildSpanData (goLib sprintv codeToStr) val pc sc).Status
      = ochttp.TraceStatus codeToStr val.HttpStatusCode "" := by
    rw [buildSpanData_status, if_pos hc]; rfl
  refine ⟨by rw [buildSpanData_status, if_pos hc], hg, ?_, ?_, ?_⟩
  · intro h1 h2
    rw [hg]
    exact traceStatusCode_2xx _ h1 h2
  · intro h1 h2
    rw [hg]
    exact traceStatusCode_4xx_5xx _ h1 h2
  · intro h
    rw [hg, h]
    rfl

/-! ## The loop of `HandleTraceSpan` -/

theorem exportedSpans_append (a b : List Event) :
    exportedSpans (a ++ b) = exportedSpans a ++ exportedSpans b := by
  simp [exportedSpans, List.filterMap_append]

theorem exportSequence_cons_skip {σ : Type} (L : Lib) (sampler : Sampler σ) (st : σ)
    (val : Instance) (values : List Instance) (h : decodes L val = false) :
    exportSequence L sampler st (val :: values) = exportSequence L sampler st values := by
  simp [exportSequence, List.filter_cons, h]

theorem exportSequence_cons_decoded {σ : Type} (L : Lib) (sampler : Sampler σ) (st : σ)
    (val : Instance) (values : List Instance) (h : decodes L val = true) :
    exportSequence L sampler st (val :: values) =
      (if (sampler st (samplingParameters L val)).1.Sample = true then [spanOf L val] else [])
        ++ exportSequence L sampler (sampler st (samplingParameters L val)).2 values := by
  cases hd : (sampler st (samplingParameters L val)).1.Sample <;>
    simp [exportSequence, List.filter_cons, h, decisions, hd]

theorem handleLoop_cons {σ : Type} (L : Lib) (sampler : Sampler σ) (s : LoopState σ)
    (val : Instance) (values : List Instance) :
    handleLoop L sampler s (val :: values)
      = handleLoop L sampler (handleOne L sampler s val) values := rfl

theorem handleLoop_append {σ : Type} (L : Lib) (sampler : Sampler σ) (s : LoopState σ)
    (xs ys : List Instance) :
    handleLoop L sampler s (xs ++ ys) = handleLoop L sampler (handleLoop L sampler s xs) ys := by
  simp [handleLoop, List.foldl_append]

/-- The spans exported by the loop are those of the specification's export sequence. -/
theorem handleLoop_exported {σ : Type} (L : Lib) (sampler : Sampler σ) (s : LoopState σ)
    (values : List Instance) :
    exportedSpans (handleLoop L sampler s values).events
      = exportedSpans s.events ++ exportSequence L sampler s.samplerState values := by
  induction values generalizing s with
  | nil => simp [handleLoop, exportSequence, decisions]
  | cons val rest ih =>
    rw [handleLoop_cons, ih]
    cases hdec : decodes L val with
    | false => rw [handleOne_skip L sampler s val hdec, exportSequence_cons_skip _ _ _ _ _ hdec]
    | true =>
      rw [handleOne_decoded L sampler s val hdec, exportSequence_cons_decoded _ _ _ _ _ hdec]
      cases hd : (sampler s.samplerState (samplingParameters L val)).1.Sample <;>
        simp [exportedSpans_append, exportedSpans]

/-- The counter of the loop counts the exported spans. -/
theorem handleLoop_numExported {σ : Type} (L : Lib) (sampler : Sampler σ) (s : LoopState σ)
    (values : List Instance) :
    (handleLoop L sampler s values).numExported
      = s.numExported + (exportSequence L sampler s.samplerState values).length := by
  induction values generalizing s with
  | nil => simp [handleLoop, exportSequence, decisions]
  | cons val rest ih =>
    rw [handleLoop_cons, ih]
    cases hdec : decodes L val with
    | false => rw [handleOne_skip L sampler s val hdec, exportSequence_cons_skip _ _ _ _ _ hdec]
    | true =>
      rw [handleOne_decoded L sampler s val hdec, exportSequence_cons_decoded _ _ _ _ _ hdec]
      cases hd : (sampler s.samplerState (samplingParameters L val)).1.Sample
      · simp
      · simp
        omega

/-- The loop never calls `Flush`. -/
theorem handleLoop_no_flush {σ : Type} (L : Lib) (sampler : Sampler σ) (s : LoopState σ)
    (values : List Instance) (h : Event.Flush ∉ s.events) :
    Event.Flush ∉ (handleLoop L sampler s values).events := by
  induction values generalizing s with
  | nil => exact h
  | cons val rest ih =>
    rw [handleLoop_cons]
    apply ih
    cases hdec : decodes L val with
    | false => rw [handleOne_skip L sampler s val hdec]; exact h
    | true =>
      rw [handleOne_decoded L sampler s val hdec]
      cases hd : (sampler s.samplerState (samplingParameters L val)).1.Sample <;>
        simp [h]

/-- The loop only adds calls after those already made. -/
theorem handleLoop_events_extend {σ : Type} (L : Lib) (sampler : Sampler σ) (s : LoopState σ)
    (values : List Instance) :
    ∃ t, (handleLoop L sampler s values).events = s.events ++ t := by
  induction values generalizing s with
  | nil => exact ⟨[], by simp [handleLoop]⟩
  | cons val rest ih =>
    rw [handleLoop_cons]
    obtain ⟨t, ht⟩ := ih (handleOne L sampler s val)
    rw [ht]
    cases hdec : decodes L val with
    | false => rw [handleOne_skip L sampler s val hdec]; exact ⟨t, rfl⟩
    | true =>
      rw [handleOne_decoded L sampler s val hdec]
      cases hd : (sampler s.samplerState (samplingParameters L val)).1.Sample
      · exact ⟨Event.Sampler (samplingParameters L val) :: t, by simp⟩
      · exact ⟨Event.Sampler (samplingParameters L val) :: Event.ExportSpan (spanOf L val) :: t,
          by simp⟩

/-- The outcome of `HandleTraceSpan` for a handler with a sampler. -/
theorem HandleTraceSpan_some {σ : Type} (L : Lib) (h : handler σ) (sampler : Sampler σ)
    (hs : h.sampler = some sampler) (values : List Instance) (st : σ) :
    HandleTraceSpan L h values st =
      { retErr := none
        samplerState := (handleLoop L sampler ⟨0, st, []⟩ values).samplerState
        events :=
          if (handleLoop L sampler ⟨0, st, []⟩ values).numExported > 0 then
            (handleLoop L sampler ⟨0, st, []⟩ values).events ++ tryFlush h
          else (handleLoop L sampler ⟨0, st, []⟩ values).events } := by
  unfold HandleTraceSpan
  rw [hs]

/-- The outcome of `HandleTraceSpan` for a handler without a sampler. -/
theorem HandleTraceSpan_none {σ : Type} (L : Lib) (h : handler σ) (hs : h.sampler = none)
    (values : List Instance) (st : σ) :
    HandleTraceSpan L h values st = { retErr := none, samplerState := st, events := [] } := by
  unfold HandleTraceSpan
  rw [hs]

theorem exportedSpans_tryFlush {σ : Type} (h : handler σ) : exportedSpans (tryFlush h) = [] := by
  unfold tryFlush
  split <;> rfl

/-- The spans exported by `HandleTraceSpan` for a handler with a sampler. -/
theorem HandleTraceSpan_exported {σ : Type} (L : Lib) (h : handler σ) (sampler : Sampler σ)
    (hs : h.sampler = some sampler) (values : List Instance) (st : σ) :
    exportedSpans (HandleTraceSpan L h values st).events
      = exportSequence L sampler st values := by
  rw [HandleTraceSpan_some L h sampler hs]
  have he := handleLoop_exported L sampler ⟨0, st, []⟩ values
  simp only [exportedSpans, List.filterMap_nil, List.nil_append] at he
  split
  · rw [exportedSpans_append, exportedSpans_tryFlush, List.append_nil]
    exact he
  · exact he

/-- The calls made by `HandleTraceSpan`: those of the loop, which has no `Flush`, followed by one
`Flush` exactly when a span was exported and the exporter implements `flusher`. -/
theorem HandleTraceSpan_events_shape {σ : Type} (L : Lib) (h : handler σ)
    (values : List Instance) (st : σ) :
    ∃ body, Event.Flush ∉ body ∧
      exportedSpans (HandleTraceSpan L h values st).events = exportedSpans body ∧
      (HandleTraceSpan L h values st).events =
        body ++ (if exportedSpans body ≠ [] ∧ h.te.implementsFlusher = true
          then [Event.Flush] else []) := by
  cases hs : h.sampler with
  | none =>
    refine ⟨[], by simp, ?_, ?_⟩
    · rw [HandleTraceSpan_none L h hs]
    · rw [HandleTraceSpan_none L h hs]
      simp [exportedSpans]
  | some sampler =>
    have hx := HandleTraceSpan_exported L h sampler hs values st
    have he := handleLoop_exported L sampler ⟨0, st, []⟩ values
    have hn := handleLoop_numExported L sampler ⟨0, st, []⟩ values
    have hf := handleLoop_no_flush L sampler ⟨0, st, []⟩ values (by simp)
    simp only [exportedSpans, List.filterMap_nil, List.nil_append] at he
    simp only [Nat.zero_add] at hn
    refine ⟨(handleLoop L sampler ⟨0, st, []⟩ values).events, hf, ?_, ?_⟩
    · rw [hx]
      exact he.symm
    · rw [HandleTraceSpan_some L h sampler hs]
      have he2 : exportedSpans (handleLoop L sampler ⟨0, st, []⟩ values).events
          = exportSequence L sampler st values := he
      rw [he2, hn]
      cases hl : exportSequence L sampler st values with
      | nil => simp
      | cons a t =>
        cases hfl : h.te.implementsFlusher <;> simp [tryFlush, hfl]

/-! ## The claims on `HandleTraceSpan` -/

theorem Float64.not_lt_of_eq_zero (p : Float64) (h : Float64.eq p Float64.zero = true) :
    Float64.lt Float64.zero p = false := by
  simp only [Float64.eq, Float64.lt, Bool.and_eq_true, decide_eq_true_eq] at h ⊢
  have hk := h.2
  simp [hk]

/-- C1: a handler built by `Build` from a configuration whose sampling probability equals 0 has
no sampler, and its `HandleTraceSpan` returns no error and makes no call at all (no `ExportSpan`,
no `Flush`), whatever the batch contains. -/
theorem HandleTraceSpan_probability_zero {σ : Type} (L : Lib)
    (getExporterFunc : Params → Except String Exporter) (b : builder) (t : Params_Trace)
    (h : handler σ) (ht : b.cfg.Trace = some t)
    (hp : Float64.eq t.SampleProbability Float64.zero = true)
    (hb : Build L getExporterFunc b = BuildResult.ok h) (values : List Instance) (st : σ) :
    h.sampler.isNone = true ∧
      (HandleTraceSpan L h values st).retErr = none ∧
      (HandleTraceSpan L h values st).events = [] ∧
      exportedSpans (HandleTraceSpan L h values st).events = [] ∧
      (HandleTraceSpan L h values st).events.count Event.Flush = 0 := by
  have hn : h.sampler = none := by
    unfold Build at hb
    cases hg : getExporterFunc b.cfg with
    | error e => simp [hg] at hb
    | ok exporter =>
      simp only [hg, ht, Float64.not_lt_of_eq_zero _ hp] at hb
      simp only [Bool.false_eq_true, if_false, BuildResult.ok.injEq] at hb
      rw [← hb]
  rw [HandleTraceSpan_none L h hn]
  simp [hn, exportedSpans]

/-- C2: for a handler with a sampler, the spans handed to `ExportSpan` are, in input order,
the spans built from the records whose trace identifier and span identifier decode and which the
sampler samples; a record whose trace identifier does not decode, inserted anywhere in a batch,
changes neither the calls made (so not the exported sequence), nor the state of the sampler, nor
the result. -/
theorem HandleTraceSpan_export_sequence {σ : Type} (L : Lib) (te : Exporter)
    (sampler : Sampler σ) (st : σ) (xs ys : List Instance) (bad : Instance)
    (hbad : L.ParseTraceID bad.TraceId = none) :
    (∀ values, exportedSpans (HandleTraceSpan L ⟨te, some sampler⟩ values st).events
        = exportSequence L sampler st values) ∧
      (HandleTraceSpan L ⟨te, some sampler⟩ (xs ++ bad :: ys) st).events
        = (HandleTraceSpan L ⟨te, some sampler⟩ (xs ++ ys) st).events ∧
      exportedSpans (HandleTraceSpan L ⟨te, some sampler⟩ (xs ++ bad :: ys) st).events
        = exportedSpans (HandleTraceSpan L ⟨te, some sampler⟩ (xs ++ ys) st).events ∧
      (HandleTraceSpan L ⟨te, some sampler⟩ (xs ++ bad :: ys) st).samplerState
        = (HandleTraceSpan L ⟨te, some sampler⟩ (xs ++ ys) st).samplerState ∧
      (HandleTraceSpan L ⟨te, some sampler⟩ (xs ++ bad :: ys) st).retErr
        = (HandleTraceSpan L ⟨te, some sampler⟩ (xs ++ ys) st).retErr := by
  have hdec : decodes L bad = false := by simp [decodes, hbad]
  have hloop : ∀ s, handleLoop L sampler s (xs ++ bad :: ys)
      = handleLoop L sampler s (xs ++ ys) := by
    intro s
    rw [handleLoop_append, handleLoop_cons, handleOne_skip L sampler _ bad hdec,
      ← handleLoop_append]
  have hout : HandleTraceSpan L ⟨te, some sampler⟩ (xs ++ bad :: ys) st
      = HandleTraceSpan L ⟨te, some sampler⟩ (xs ++ ys) st := by
    rw [HandleTraceSpan_some L _ sampler rfl, HandleTraceSpan_some L _ sampler rfl, hloop]
  refine ⟨fun values => HandleTraceSpan_exported L _ sampler rfl values st, ?_, ?_, ?_, ?_⟩ <;>
    rw [hout]

theorem exportSequence_always {σ : Type} (L : Lib) (f : SamplingParameters → SamplingDecision)
    (hf : ∀ p, (f p).Sample = true) (st : σ) (values : List Instance) :
    exportSequence L (fun s p => (f p, s)) st values
      = (values.filter (decodes L)).map (spanOf L) := by
  induction values with
  | nil => simp [exportSequence, decisions]
  | cons val rest ih =>
    cases hdec : decodes L val with
    | false => rw [exportSequence_cons_skip _ _ _ _ _ hdec, ih]; simp [List.filter_cons, hdec]
    | true =>
      rw [exportSequence_cons_decoded _ _ _ _ _ hdec]
      simp only [hf, if_true, ih]
      simp [List.filter_cons, hdec]

/-- C3: a handler built by `Build` with sampling probability 1, whose sampler then samples every
span, exports exactly the records whose trace identifier and span identifier both decode, each
once and in input order, whether or not the parent span identifier decodes (it is not part of
`decodes`), and exports nothing else. -/
theorem HandleTraceSpan_probability_one {σ : Type} (L : Lib)
    (getExporterFunc : Params → Except String Exporter) (b : builder) (t : Params_Trace)
    (h : handler σ) (hlib : ∀ p, (L.ProbabilitySampler Float64.one p).Sample = true)
    (ht : b.cfg.Trace = some t) (hp : t.SampleProbability = Float64.one)
    (hb : Build L getExporterFunc b = BuildResult.ok h) (values : List Instance) (st : σ) :
    exportedSpans (HandleTraceSpan L h values st).events
      = (values.filter (decodes L)).map (spanOf L) := by
  have hpos : Float64.lt Float64.zero Float64.one = true := by decide
  have hs : h.sampler = some (fun s p => (L.ProbabilitySampler Float64.one p, s)) := by
    unfold Build at hb
    cases hg : getExporterFunc b.cfg with
    | error e => simp [hg] at hb
    | ok exporter =>
      simp only [hg, ht, hp, hpos, if_true, BuildResult.ok.injEq] at hb
      rw [← hb]
  rw [HandleTraceSpan_exported L h _ hs, exportSequence_always L _ hlib]

theorem buildSpanData_ParentSpanID (L : Lib) (val : Instance) (pc sc : SpanContext) :
    (buildSpanData L val pc sc).ParentSpanID = pc.SpanID := rfl

/-- C4: for a record whose trace and span identifiers decode but whose parent span identifier
does not, `extractParentContext` succeeds with the all-zero parent span identifier, the record
passes both decoding steps, it is exported in any batch whenever the sampler, asked at its turn,
samples it, and the span exported for it has the all-zero `ParentSpanID`. -/
theorem parent_decode_failure_not_dropped (σ : Type) (L : Lib) (val : Instance) (t : TraceID)
    (sp : SpanID) (ht : L.ParseTraceID val.TraceId = some t)
    (hs : L.ParseSpanID val.SpanId = some sp) (hp : L.ParseSpanID val.ParentSpanId = none) :
    extractParentContext L val
        = ({ TraceID := t, SpanID := Bytes.zero 8, TraceOptions := 0 }, true) ∧
      decodes L val = true ∧
      (∀ sc, (buildSpanData L val (extractParentContext L val).1 sc).ParentSpanID
        = Bytes.zero 8) ∧
      (spanOf L val).ParentSpanID = Bytes.zero 8 ∧
      ∀ (te : Exporter) (sampler : Sampler σ) (xs ys : List Instance) (st : σ),
        (sampler (HandleTraceSpan L ⟨te, some sampler⟩ xs st).samplerState
            (samplingParameters L val)).1.Sample = true →
          Event.ExportSpan (spanOf L val)
            ∈ (HandleTraceSpan L ⟨te, some sampler⟩ (xs ++ val :: ys) st).events := by
  have hpc : extractParentContext L val
      = ({ TraceID := t, SpanID := Bytes.zero 8, TraceOptions := 0 }, true) := by
    simp [extractParentContext, ht, hp, SpanContext.zero]
  have hdec : decodes L val = true := by simp [decodes, ht, hs]
  refine ⟨hpc, hdec, ?_, ?_, ?_⟩
  · intro sc
    rw [buildSpanData_ParentSpanID, hpc]
  · unfold spanOf
    simp only [buildSpanData_ParentSpanID, hpc]
  · intro te sampler xs ys st hsample
    rw [HandleTraceSpan_some L _ sampler rfl] at hsample
    rw [HandleTraceSpan_some L _ sampler rfl]
    simp only at hsample
    have hmem : Event.ExportSpan (spanOf L val)
        ∈ (handleLoop L sampler ⟨0, st, []⟩ (xs ++ val :: ys)).events := by
      rw [handleLoop_append, handleLoop_cons]
      obtain ⟨tl, htl⟩ := handleLoop_events_extend L sampler
        (handleOne L sampler (handleLoop L sampler ⟨0, st, []⟩ xs) val) ys
      rw [htl, handleOne_decoded L sampler _ val hdec, if_pos hsample]
      simp
    show Event.ExportSpan (spanOf L val) ∈
      (if (handleLoop L sampler ⟨0, st, []⟩ (xs ++ val :: ys)).numExported > 0 then _ else _)
    split
    · exact List.mem_append_left _ hmem
    · exact hmem

/-- C5: `HandleTraceSpan` returns no error, for every handler, with or without a sampler, and
every batch. -/
theorem HandleTraceSpan_returns_nil {σ : Type} (L : Lib) (h : handler σ)
    (values : List Instance) (st : σ) : (HandleTraceSpan L h values st).retErr = none := by
  cases hs : h.sampler with
  | none => rw [HandleTraceSpan_none L h hs]
  | some sampler => rw [HandleTraceSpan_some L h sampler hs]

/-- C6: the calls of `HandleTraceSpan` are calls other than `Flush` followed by one `Flush`
exactly when a span was exported and the exporter implements `flusher`: then `Flush` is called
once and is the last call, after every `ExportSpan`; when no span was exported or the exporter
does not implement `flusher`, `Flush` is not called. -/
theorem HandleTraceSpan_flush {σ : Type} (L : Lib) (h : handler σ) (values : List Instance)
    (st : σ) :
    (∃ body, Event.Flush ∉ body ∧
      (HandleTraceSpan L h values st).events =
        body ++ (if exportedSpans (HandleTraceSpan L h values st).events ≠ []
            ∧ h.te.implementsFlusher = true
          then [Event.Flush] else [])) ∧
      (exportedSpans (HandleTraceSpan L h values st).events ≠ [] →
        h.te.implementsFlusher = true →
          (HandleTraceSpan L h values st).events.count Event.Flush = 1 ∧
            (HandleTraceSpan L h values st).events.getLast? = some Event.Flush) ∧
      (exportedSpans (HandleTraceSpan L h values st).events = []
          ∨ h.te.implementsFlusher = false →
        (HandleTraceSpan L h values st).events.count Event.Flush = 0) := by
  obtain ⟨body, hnf, hex, hev⟩ := HandleTraceSpan_events_shape L h values st
  have hc : body.count Event.Flush = 0 := List.count_eq_zero_of_not_mem hnf
  rw [← hex] at hev
  refine ⟨⟨body, hnf, hev⟩, ?_, ?_⟩
  · intro h1 h2
    rw [if_pos ⟨h1, h2⟩] at hev
    rw [hev]
    simp [List.count_append, hc]
  · intro h1
    have hneg : ¬ (exportedSpans (HandleTraceSpan L h values st).events ≠ []
        ∧ h.te.implementsFlusher = true) := by
      rintro ⟨h2, h3⟩
      rcases h1 with h1 | h1
      · exact h2 h1
      · rw [h1] at h3
        exact Bool.false_ne_true h3
    rw [if_neg hneg] at hev
    rw [hev]
    simp [hc]

/-! ## `buildSpanData`: tags and fixed fields -/

theorem coerceTag_eq (L : Lib) (v : GoValue) :
    (∀ x, v = GoValue.string x → coerceTag L v = v) ∧
      (∀ i, v = GoValue.int64 i → coerceTag L v = v) ∧
      (∀ f, v = GoValue.float64 f → coerceTag L v = v) ∧
      (∀ o, v = GoValue.other o → coerceTag L v = GoValue.string (L.Sprintv o)) := by
  refine ⟨?_, ?_, ?_, ?_⟩ <;> intro x hx <;> subst hx <;> rfl

/-- C11: for every tag `(k, v)` of a record, the attributes built by `buildSpanData` contain
the key `k`; it is mapped to `v` itself when `v` is a string, an `int64` or a `float64`, and to
the string `fmt.Sprintf("%v", v)` when `v` has another type. -/
theorem buildSpanData_attribute_of_tag (L : Lib) (val : Instance) (pc sc : SpanContext)
    (k : String) (v : GoValue) (h : val.SpanTags.get? k = some v) :
    k ∈ (buildSpanData L val pc sc).Attributes.keys ∧
      (buildSpanData L val pc sc).Attributes.get? k = some (coerceTag L v) ∧
      (∀ x, v = GoValue.string x →
        (buildSpanData L val pc sc).Attributes.get? k = some (GoValue.string x)) ∧
      (∀ i, v = GoValue.int64 i →
        (buildSpanData L val pc sc).Attributes.get? k = some (GoValue.int64 i)) ∧
      (∀ f, v = GoValue.float64 f →
        (buildSpanData L val pc sc).Attributes.get? k = some (GoValue.float64 f)) ∧
      (∀ o, v = GoValue.other o →
        (buildSpanData L val pc sc).Attributes.get? k
          = some (GoValue.string (L.Sprintv o))) := by
  have ht : (tagAttributes L val.SpanTags).get? k = some (coerceTag L v) := by
    rw [tagAttributes_get?, h]; rfl
  have hget : (buildSpanData L val pc sc).Attributes.get? k = some (coerceTag L v) := by
    rw [buildSpanData_attributes]
    by_cases hc : val.HttpStatusCode > 0
    · rw [if_pos hc]
      cases hs : (tagAttributes L val.SpanTags).get? attrHTTPStatusCode with
      | some w => exact ht
      | none =>
        have hne : k ≠ attrHTTPStatusCode := by
          intro hk
          rw [hk, hs] at ht
          exact Option.noConfusion ht
        show ((tagAttributes L val.SpanTags).set attrHTTPStatusCode _).get? k = _
        rw [GoMap.get?_set_ne _ _ _ _ hne, ht]
    · rw [if_neg hc]
      exact ht
  refine ⟨?_, hget, ?_, ?_, ?_, ?_⟩
  · rw [GoMap.mem_keys_iff, hget]; rfl
  · intro x hx; rw [hget, hx]; rfl
  · intro i hi; rw [hget, hi]; rfl
  · intro f hf; rw [hget, hf]; rfl
  · intro o ho; rw [hget, ho]; rfl

/-- C12: the span built by `buildSpanData` has kind server and the remote-parent flag set, the
name, start time and end time of the record, the span identifier of the parent context as
`ParentSpanID`, and a span context with the trace identifier, the span identifier and the trace
options of the given span context. -/
theorem buildSpanData_fixed_fields (L : Lib) (val : Instance) (pc sc : SpanContext) :
    (buildSpanData L val pc sc).SpanKind = SpanKindServer ∧
      (buildSpanData L val pc sc).HasRemoteParent = true ∧
      (buildSpanData L val pc sc).Name = val.SpanName ∧
      (buildSpanData L val pc sc).StartTime = val.StartTime ∧
      (buildSpanData L val pc sc).EndTime = val.EndTime ∧
      (buildSpanData L val pc sc).ParentSpanID = pc.SpanID ∧
      (buildSpanData L val pc sc).SpanContext.TraceID = sc.TraceID ∧
      (buildSpanData L val pc sc).SpanContext.SpanID = sc.SpanID ∧
      (buildSpanData L val pc sc).SpanContext.TraceOptions = sc.TraceOptions :=
  ⟨rfl, rfl, rfl, rfl, rfl, rfl, rfl, rfl, rfl⟩

/-! ## Sampled flag and sampler calls -/

theorem mem_exportSequence {σ : Type} (L : Lib) (sampler : Sampler σ) (st : σ)
    (values : List Instance) (span : SpanData)
    (h : span ∈ exportSequence L sampler st values) :
    ∃ val ∈ values, decodes L val = true ∧ span = spanOf L val := by
  unfold exportSequence at h
  simp only [List.mem_map, List.mem_filter] at h
  obtain ⟨x, ⟨hx, _⟩, hspan⟩ := h
  have hmem := (List.of_mem_zip hx).1
  rw [List.mem_filter] at hmem
  exact ⟨x.1, hmem.1, hmem.2, hspan.symm⟩

/-- C13: every span that `HandleTraceSpan` hands to `ExportSpan` has trace options equal to 1 in
its span context, that is the sampled bit set, for every handler, batch and sampler state. -/
theorem exported_span_is_sampled {σ : Type} (L : Lib) (h : handler σ) (values : List Instance)
    (st : σ) (span : SpanData)
    (hmem : span ∈ exportedSpans (HandleTraceSpan L h values st).events) :
    span.SpanContext.TraceOptions = 1 ∧ span.SpanContext.IsSampled = true := by
  cases hs : h.sampler with
  | none =>
    rw [HandleTraceSpan_none L h hs] at hmem
    simp [exportedSpans] at hmem
  | some sampler =>
    rw [HandleTraceSpan_exported L h sampler hs] at hmem
    obtain ⟨val, _, _, hspan⟩ := mem_exportSequence L sampler st values span hmem
    rw [hspan]
    exact ⟨rfl, rfl⟩

theorem samplerCalls_append (a b : List Event) :
    samplerCalls (a ++ b) = samplerCalls a ++ samplerCalls b := by
  simp [samplerCalls, List.filterMap_append]

theorem samplerCalls_tryFlush {σ : Type} (h : handler σ) : samplerCalls (tryFlush h) = [] := by
  unfold tryFlush
  split <;> rfl

/-- The loop asks the sampler once about each record that decodes, in input order. -/
theorem handleLoop_samplerCalls {σ : Type} (L : Lib) (sampler : Sampler σ) (s : LoopState σ)
    (values : List Instance) :
    samplerCalls (handleLoop L sampler s values).events
      = samplerCalls s.events ++ (values.filter (decodes L)).map (samplingParameters L) := by
  induction values generalizing s with
  | nil => simp [handleLoop]
  | cons val rest ih =>
    rw [handleLoop_cons, ih]
    cases hdec : decodes L val with
    | false => rw [handleOne_skip L sampler s val hdec]; simp [List.filter_cons, hdec]
    | true =>
      rw [handleOne_decoded L sampler s val hdec]
      cases hd : (sampler s.samplerState (samplingParameters L val)).1.Sample <;>
        simp [samplerCalls_append, samplerCalls, List.filter_cons, hdec]

/-- C19: for a handler with a sampler, the sampler is called once for each record whose trace
and span identifiers both decode, in input order, and for no other record; the call for such a
record has `HasRemoteParent = true`, the span name of the record, the decoded trace identifier
(which is also that of the parent context), the decoded span identifier, and the result of
`extractParentContext` as parent context. -/
theorem sampler_called_once_per_decoded_record {σ : Type} (L : Lib) (te : Exporter)
    (sampler : Sampler σ) (st : σ) (values : List Instance) (val : Instance) (t : TraceID)
    (sp : SpanID) (ht : L.ParseTraceID val.TraceId = some t)
    (hs : L.ParseSpanID val.SpanId = some sp) :
    samplerCalls (HandleTraceSpan L ⟨te, some sampler⟩ values st).events
        = (values.filter (decodes L)).map (samplingParameters L) ∧
      decodes L val = true ∧
      (samplingParameters L val).HasRemoteParent = true ∧
      (samplingParameters L val).Name = val.SpanName ∧
      (samplingParameters L val).TraceID = t ∧
      (samplingParameters L val).ParentContext.TraceID = t ∧
      (samplingParameters L val).SpanID = sp ∧
      (samplingParameters L val).ParentContext = (extractParentContext L val).1 ∧
      (extractParentContext L val).2 = true := by
  refine ⟨?_, by simp [decodes, ht, hs], rfl, rfl, ?_, ?_, ?_, rfl, ?_⟩
  · rw [HandleTraceSpan_some L _ sampler rfl]
    have hl := handleLoop_samplerCalls L sampler ⟨0, st, []⟩ values
    simp only [samplerCalls, List.filterMap_nil, List.nil_append] at hl
    show samplerCalls
      (if (handleLoop L sampler ⟨0, st, []⟩ values).numExported > 0 then _ else _) = _
    split
    · rw [samplerCalls_append, samplerCalls_tryFlush, List.append_nil]
      exact hl
    · exact hl
  · simp [samplingParameters, extractParentContext, extractSpanContext, ht, hs]
  · simp [samplingParameters, extractParentContext, ht]
  · simp [samplingParameters, extractParentContext, extractSpanContext, ht, hs]
  · simp [extractParentContext, ht]

/-! ## `Validate`, `Build` and `Close` -/

theorem Validate_eq_none_iff (b : builder) :
    Validate b = none ↔
      ∀ t, b.cfg.Trace = some t →
        Float64.lt t.SampleProbability Float64.zero = false ∧
          Float64.lt Float64.one t.SampleProbability = false := by
  unfold Validate
  cases hT : b.cfg.Trace with
  | none => simp
  | some t =>
    cases h1 : Float64.lt t.SampleProbability Float64.zero <;>
      cases h2 : Float64.lt Float64.one t.SampleProbability <;>
      simp [ConfigErrors.Appendf, h1, h2]

theorem Float64.not_lt_of_le (x y : Float64) (h : Float64.le x y = true) :
    Float64.lt y x = false := by
  simp only [Float64.le, Float64.lt, Bool.and_eq_true, decide_eq_true_eq] at h ⊢
  have hk := h.2
  simp only [Bool.and_eq_false_iff, decide_eq_false_iff_not]
  right
  omega

/-- C14: `Validate` reports a configuration error exactly when the configuration has a trace
section whose sampling probability is less than 0 or greater than 1; every probability `p` with
`0 <= p <= 1` is accepted, in particular 0 and 1, and so is a configuration without a trace
section. -/
theorem Validate_error_iff (b : builder) :
    ((Validate b).isSome = true ↔
        ∃ t, b.cfg.Trace = some t ∧
          (Float64.lt t.SampleProbability Float64.zero = true
            ∨ Float64.lt Float64.one t.SampleProbability = true)) ∧
      (∀ t, b.cfg.Trace = some t → Float64.le Float64.zero t.SampleProbability = true →
        Float64.le t.SampleProbability Float64.one = true → Validate b = none) ∧
      Validate ⟨⟨some ⟨Float64.zero⟩⟩⟩ = none ∧
      Validate ⟨⟨some ⟨Float64.one⟩⟩⟩ = none ∧
      Validate ⟨⟨none⟩⟩ = none := by
  refine ⟨?_, ?_, by decide, by decide, by decide⟩
  · constructor
    · intro h
      by_contra hne
      have hn : Validate b = none := by
        rw [Validate_eq_none_iff]
        intro t ht
        constructor
        · cases h1 : Float64.lt t.SampleProbability Float64.zero with
          | false => rfl
          | true => exact absurd ⟨t, ht, Or.inl h1⟩ hne
        · cases h2 : Float64.lt Float64.one t.SampleProbability with
          | false => rfl
          | true => exact absurd ⟨t, ht, Or.inr h2⟩ hne
      rw [hn] at h
      exact Bool.false_ne_true h
    · rintro ⟨t, ht, hlt⟩
      cases hv : Validate b with
      | some e => rfl
      | none =>
        have := (Validate_eq_none_iff b).1 hv t ht
        rcases hlt with h1 | h1
        · rw [this.1] at h1; exact absurd h1 Bool.false_ne_true
        · rw [this.2] at h1; exact absurd h1 Bool.false_ne_true
  · intro t ht h0 h1
    rw [Validate_eq_none_iff]
    intro t2 ht2
    rw [ht] at ht2
    cases ht2
    exact ⟨Float64.not_lt_of_le _ _ h0, Float64.not_lt_of_le _ _ h1⟩

/-- C15 as amended: when `Validate` reports an error, it reports exactly one, for the field
`trace.sampleProbability`, whose message is
`sampling probability must be between 0 and 1 (inclusive)`, with the parentheses. -/
theorem Validate_message (b : builder) (h : (Validate b).isSome = true) :
    Validate b
      = some [{ Field := "trace.sampleProbability"
                Underlying := "sampling probability must be between 0 and 1 (inclusive)" }] := by
  unfold Validate at h ⊢
  cases hT : b.cfg.Trace with
  | none => simp [hT] at h
  | some t =>
    simp only [hT] at h ⊢
    by_cases hc : (Float64.lt t.SampleProbability Float64.zero
        || Float64.lt Float64.one t.SampleProbability) = true
    · rw [if_pos hc]
      rfl
    · rw [if_neg hc] at h
      simp at h

/-- C15 as stated fails: for the sampling probability 2 the message of the reported error is
not `sampling probability must be between 0 and 1 inclusive`. -/
theorem Validate_message_counterexample :
    (Validate (exampleBuilder exampleTwo)).isSome = true ∧
      ¬ ∀ e ∈ (Validate (exampleBuilder exampleTwo)).getD [],
        e.Underlying = "sampling probability must be between 0 and 1 inclusive" := by
  decide

/-- C18: `Close` returns no error, leaves the handler (exporter and sampler) and the state of the
sampler as they are and makes no call; closing twice gives the same result and the same handler
as closing once. -/
theorem Close_is_noop {σ : Type} (h : handler σ) (st : σ) :
    (Close h st).2.retErr = none ∧
      (Close h st).1 = h ∧
      (Close h st).1.te = h.te ∧
      (Close h st).2.samplerState = st ∧
      (Close h st).2.events = [] ∧
      exportedSpans (Close h st).2.events = [] ∧
      (Close h st).2.events.count Event.Flush = 0 ∧
      Close (Close h st).1 (Close h st).2.samplerState = Close h st :=
  ⟨rfl, rfl, rfl, rfl, rfl, rfl, rfl, rfl⟩

/-- With a trace section and an exporter, `Build` returns a handler with that exporter, and with
a sampler exactly when the sampling probability is greater than 0. -/
theorem Build_with_trace_section {σ : Type} (L : Lib)
    (getExporterFunc : Params → Except String Exporter) (b : builder) (t : Params_Trace)
    (exporter : Exporter) (ht : b.cfg.Trace = some t)
    (he : getExporterFunc b.cfg = Except.ok exporter) :
    ∃ h : handler σ, Build L getExporterFunc b = BuildResult.ok h ∧ h.te = exporter ∧
      h.sampler.isSome = Float64.lt Float64.zero t.SampleProbability := by
  unfold Build
  simp only [he, ht]
  cases hp : Float64.lt Float64.zero t.SampleProbability with
  | false => exact ⟨{ te := exporter, sampler := none }, by simp, rfl, rfl⟩
  | true =>
    exact ⟨{ te := exporter
             sampler := some (fun st p => (L.ProbabilitySampler t.SampleProbability p, st)) },
      by simp, rfl, rfl⟩

/-- C20 fails on the code: a configuration without a trace section is accepted by `Validate`,
and `Build`, with the exporter created without error, dereferences the nil trace section and
panics instead of returning a handler. -/
theorem Build_without_trace_section_panics (σ : Type) (L : Lib) (exporter : Exporter) :
    Validate exampleBuilderNoTrace = none ∧
      (Build L (fun _ => Except.ok exporter) exampleBuilderNoTrace : BuildResult σ)
        = BuildResult.panic :=
  ⟨rfl, rfl⟩


/-! ## Hexadecimal identifiers -/

theorem hexDecode_eq_none_of_not_hex :
    ∀ l : List Char, (∃ c ∈ l, fromHexChar c = none) → hexDecode l = none
  | [], h => by simp at h
  | [_], _ => rfl
  | a :: b :: rest, h => by
    obtain ⟨c, hc, hbad⟩ := h
    unfold hexDecode
    cases ha : fromHexChar a with
    | none => rfl
    | some hi =>
      cases hb : fromHexChar b with
      | none => rfl
      | some lo =>
        have hrest : c ∈ rest := by
          simp only [List.mem_cons] at hc
          rcases hc with hc | hc | hc
          · rw [hc, ha] at hbad; exact Option.noConfusion hbad
          · rw [hc, hb] at hbad; exact Option.noConfusion hbad
          · exact hc
        rw [hexDecode_eq_none_of_not_hex rest ⟨c, hrest, hbad⟩]

theorem fromHexChar_toHexChar : ∀ d : Fin 16, fromHexChar (toHexChar d) = some d := by decide

theorem hexByte_div_mod (b : Fin 256) :
    hexByte ⟨b.val / 16, by omega⟩ ⟨b.val % 16, by omega⟩ = b := by
  apply Fin.ext
  simp only [hexByte]
  omega

theorem hexDecode_hexEncode (bs : List (Fin 256)) : hexDecode (hexEncode bs) = some bs := by
  induction bs with
  | nil => rfl
  | cons b bs ih =>
    simp only [hexEncode, hexDecode, fromHexChar_toHexChar, ih, hexByte_div_mod]

theorem length_hexEncode (bs : List (Fin 256)) : (hexEncode bs).length = 2 * bs.length := by
  induction bs with
  | nil => rfl
  | cons b bs ih => simp only [hexEncode, List.length_cons, ih]; omega

theorem bigEndian_zeros_append (n : Nat) (x : List (Fin 256)) :
    bigEndian (List.replicate n 0 ++ x) = bigEndian x := by
  unfold bigEndian
  rw [List.foldl_append]
  have hz : (List.replicate n (0 : Fin 256)).foldl (fun acc x => acc * 256 + x.val) 0 = 0 := by
    induction n with
    | zero => rfl
    | succ n ih => simpa [List.replicate_succ] using ih
  rw [hz]

theorem ParseTraceID_eq_none (tid : String) (h16 : notHex 16 tid) (h32 : notHex 32 tid) :
    b3.ParseTraceID tid = none := by
  unfold b3.ParseTraceID
  by_cases hl : tid.length = 16 ∨ tid.length = 32
  · have hbad : ∃ c ∈ tid.data, fromHexChar c = none := by
      rcases hl with hl | hl
      · exact h16.resolve_left (fun hn => hn hl)
      · exact h32.resolve_left (fun hn => hn hl)
    rw [if_pos hl, hexDecode_eq_none_of_not_hex _ hbad]
  · rw [if_neg hl]

theorem ParseSpanID_eq_none (sid : String) (h16 : notHex 16 sid) : b3.ParseSpanID sid = none := by
  unfold b3.ParseSpanID
  by_cases hl : sid.length = 16
  · rw [if_pos hl, hexDecode_eq_none_of_not_hex _ (h16.resolve_left (fun hn => hn hl))]
  · rw [if_neg hl]

theorem ParseTraceID_hexEncode (x : List (Fin 256)) (hx : x.length = 8 ∨ x.length = 16) :
    ∃ h, b3.ParseTraceID (String.mk (hexEncode x)) = some (Bytes.rightAlign 16 x h) := by
  have hle : x.length ≤ 16 := by omega
  refine ⟨hle, ?_⟩
  unfold b3.ParseTraceID
  have hl : (String.mk (hexEncode x)).length = 16 ∨ (String.mk (hexEncode x)).length = 32 := by
    simp only [String.length, length_hexEncode]
    omega
  rw [if_pos hl]
  simp only [hexDecode_hexEncode, dif_pos hle]

theorem ParseSpanID_hexEncode (y : List (Fin 256)) (hy : y.length = 8) :
    ∃ h, b3.ParseSpanID (String.mk (hexEncode y)) = some (Bytes.rightAlign 8 y h) := by
  have hle : y.length ≤ 8 := by omega
  refine ⟨hle, ?_⟩
  unfold b3.ParseSpanID
  have hl : (String.mk (hexEncode y)).length = 16 := by
    simp only [String.length, length_hexEncode]
    omega
  rw [if_pos hl]
  simp only [hexDecode_hexEncode, dif_pos hle]

/-- A record that does not decode can be taken out of a batch without any change. -/
theorem HandleTraceSpan_skip_undecoded {σ : Type} (L : Lib) (h : handler σ)
    (xs ys : List Instance) (val : Instance) (st : σ) (hdec : decodes L val = false) :
    HandleTraceSpan L h (xs ++ val :: ys) st = HandleTraceSpan L h (xs ++ ys) st := by
  cases hs : h.sampler with
  | none => rw [HandleTraceSpan_none L h hs, HandleTraceSpan_none L h hs]
  | some sampler =>
    have hloop : ∀ s, handleLoop L sampler s (xs ++ val :: ys)
        = handleLoop L sampler s (xs ++ ys) := by
      intro s
      rw [handleLoop_append, handleLoop_cons, handleOne_skip L sampler _ val hdec,
        ← handleLoop_append]
    rw [HandleTraceSpan_some L h sampler hs, HandleTraceSpan_some L h sampler hs, hloop]

/-- C16: in the model of `b3`, decoding a trace identifier fails for every text that is neither
16 nor 32 hexadecimal characters, and decoding a span identifier fails for every text that is not
16 hexadecimal characters; `extractParentContext` and `extractSpanContext` then fail, and a
record with such a trace identifier or span identifier is never exported: the handler makes the
same calls and ends in the same state as for the batch without the record, and on its own the
record leads to no export. -/
theorem undecodable_identifier_never_exported {σ : Type} (sprintv : OtherValue → String)
    (codeToStr : Int → String) (h : handler σ) (xs ys : List Instance) (val : Instance) (st : σ)
    (hbad : (notHex 16 val.TraceId ∧ notHex 32 val.TraceId) ∨ notHex 16 val.SpanId) :
    (∀ tid, notHex 16 tid → notHex 32 tid → b3.ParseTraceID tid = none) ∧
      (∀ sid, notHex 16 sid → b3.ParseSpanID sid = none) ∧
      (notHex 16 val.TraceId → notHex 32 val.TraceId →
        (extractParentContext (goLib sprintv codeToStr) val).2 = false) ∧
      (notHex 16 val.SpanId →
        ∀ parent, (extractSpanContext (goLib sprintv codeToStr) val parent).2 = false) ∧
      HandleTraceSpan (goLib sprintv codeToStr) h (xs ++ val :: ys) st
        = HandleTraceSpan (goLib sprintv codeToStr) h (xs ++ ys) st ∧
      exportedSpans (HandleTraceSpan (goLib sprintv codeToStr) h [val] st).events = [] := by
  have hdec : decodes (goLib sprintv codeToStr) val = false := by
    unfold decodes
    rcases hbad with ⟨h16, h32⟩ | h16
    · have : (goLib sprintv codeToStr).ParseTraceID val.TraceId = none :=
        ParseTraceID_eq_none _ h16 h32
      rw [this]; rfl
    · have : (goLib sprintv codeToStr).ParseSpanID val.SpanId = none :=
        ParseSpanID_eq_none _ h16
      rw [this]; simp
  refine ⟨ParseTraceID_eq_none, ParseSpanID_eq_none, ?_, ?_,
    HandleTraceSpan_skip_undecoded _ h xs ys val st hdec, ?_⟩
  · intro h16 h32
    have : (goLib sprintv codeToStr).ParseTraceID val.TraceId = none :=
      ParseTraceID_eq_none _ h16 h32
    simp [extractParentContext, this]
  · intro h16 parent
    have : (goLib sprintv codeToStr).ParseSpanID val.SpanId = none :=
      ParseSpanID_eq_none _ h16
    simp [extractSpanContext, this]
  · have hskip := HandleTraceSpan_skip_undecoded (goLib sprintv codeToStr) h [] [] val st hdec
    simp only [List.nil_append] at hskip
    rw [hskip]
    cases hs : h.sampler with
    | none => rw [HandleTraceSpan_none _ h hs]; rfl
    | some sampler =>
      rw [HandleTraceSpan_exported _ h sampler hs]
      simp [exportSequence, decisions]

/-- C17: in the model of `b3`, for an 8-byte or 16-byte trace identifier `x` and an 8-byte span
identifier `y`, a record whose `TraceId` and `SpanId` are the lower-case hexadecimal texts of `x`
and `y` makes `extractParentContext` and `extractSpanContext` succeed; the span context, and
the span built for the record, carry the span identifier `y` and the trace identifier `x`, which
for an 8-byte `x` fills the low 8 bytes of the 16-byte array (the high bytes are 0, so the value
read as a big-endian number is that of `x`). -/
theorem decode_undoes_encode (sprintv : OtherValue → String) (codeToStr : Int → String)
    (val : Instance) (x y : List (Fin 256)) (hx : x.length = 8 ∨ x.length = 16)
    (hy : y.length = 8) (ht : val.TraceId = String.mk (hexEncode x))
    (hs : val.SpanId = String.mk (hexEncode y)) :
    (extractParentContext (goLib sprintv codeToStr) val).2 = true ∧
      (extractSpanContext (goLib sprintv codeToStr) val
        (extractParentContext (goLib sprintv codeToStr) val).1).2 = true ∧
      (extractSpanContext (goLib sprintv codeToStr) val
        (extractParentContext (goLib sprintv codeToStr) val).1).1.TraceID.bytes
          = List.replicate (16 - x.length) 0 ++ x ∧
      (x.length = 16 →
        (extractSpanContext (goLib sprintv codeToStr) val
          (extractParentContext (goLib sprintv codeToStr) val).1).1.TraceID.bytes = x) ∧
      bigEndian (extractSpanContext (goLib sprintv codeToStr) val
        (extractParentContext (goLib sprintv codeToStr) val).1).1.TraceID.bytes
          = bigEndian x ∧
      (extractSpanContext (goLib sprintv codeToStr) val
        (extractParentContext (goLib sprintv codeToStr) val).1).1.SpanID.bytes = y ∧
      (spanOf (goLib sprintv codeToStr) val).SpanContext.TraceID.bytes
        = List.replicate (16 - x.length) 0 ++ x ∧
      (spanOf (goLib sprintv codeToStr) val).SpanContext.SpanID.bytes = y := by
  obtain ⟨hxl, hpx⟩ := ParseTraceID_hexEncode x hx
  obtain ⟨hyl, hpy⟩ := ParseSpanID_hexEncode y hy
  have h1 : (goLib sprintv codeToStr).ParseTraceID val.TraceId
      = some (Bytes.rightAlign 16 x hxl) := by rw [ht]; exact hpx
  have h2 : (goLib sprintv codeToStr).ParseSpanID val.SpanId
      = some (Bytes.rightAlign 8 y hyl) := by rw [hs]; exact hpy
  have hpc : (extractParentContext (goLib sprintv codeToStr) val).2 = true := by
    simp [extractParentContext, h1]
  have hsc : extractSpanContext (goLib sprintv codeToStr) val
      (extractParentContext (goLib sprintv codeToStr) val).1
        = ({ TraceID := Bytes.rightAlign 16 x hxl, SpanID := Bytes.rightAlign 8 y hyl,
             TraceOptions := 0 }, true) := by
    simp [extractSpanContext, extractParentContext, h1, h2, SpanContext.zero]
  have hyb : (Bytes.rightAlign 8 y hyl).bytes = y := by
    simp [Bytes.rightAlign, hy]
  have hspan : spanOf (goLib sprintv codeToStr) val
      = buildSpanData (goLib sprintv codeToStr) val
          (extractParentContext (goLib sprintv codeToStr) val).1
          { TraceID := Bytes.rightAlign 16 x hxl, SpanID := Bytes.rightAlign 8 y hyl,
            TraceOptions := 1 } := by
    unfold spanOf
    simp only [hsc]
  refine ⟨hpc, by rw [hsc], by rw [hsc]; rfl, ?_, ?_, by rw [hsc]; exact hyb, ?_, ?_⟩
  · intro h16
    rw [hsc]
    simp [Bytes.rightAlign, h16]
  · rw [hsc]
    exact bigEndian_zeros_append _ x
  · rw [hspan]; rfl
  · rw [hspan]; exact hyb

/-! ## Instances of the claims on the example data -/

theorem HandleTraceSpan_probability_zero_witness :
    Float64.eq Float64.zero Float64.zero = true ∧
      (HandleTraceSpan exampleLib (⟨⟨true⟩, none⟩ : handler Unit)
        [exampleRecord, exampleBadRecord] ()).events = [] :=
  ⟨by decide,
    (HandleTraceSpan_probability_zero exampleLib exampleExporterFunc
      (exampleBuilder Float64.zero) ⟨Float64.zero⟩ ⟨⟨true⟩, none⟩ rfl (by decide) rfl
      [exampleRecord, exampleBadRecord] ()).2.2.1⟩

theorem HandleTraceSpan_export_sequence_witness :
    exampleLib.ParseTraceID exampleBadRecord.TraceId = none ∧
      exportedSpans (HandleTraceSpan exampleLib ⟨⟨true⟩, some alternatingSampler⟩
          ([exampleRecord] ++ exampleBadRecord :: [exampleTaggedRecord]) true).events
        = exportedSpans (HandleTraceSpan exampleLib ⟨⟨true⟩, some alternatingSampler⟩
          ([exampleRecord] ++ [exampleTaggedRecord]) true).events :=
  ⟨by decide,
    (HandleTraceSpan_export_sequence exampleLib ⟨true⟩ alternatingSampler true [exampleRecord]
      [exampleTaggedRecord] exampleBadRecord (by decide)).2.2.1⟩

theorem HandleTraceSpan_probability_one_witness :
    exportedSpans (HandleTraceSpan exampleLib
        (⟨⟨true⟩, some (fun s p => (exampleLib.ProbabilitySampler Float64.one p, s))⟩ :
          handler Unit)
        [exampleRecord, exampleBadRecord, exampleTaggedRecord] ()).events
      = [spanOf exampleLib exampleRecord, spanOf exampleLib exampleTaggedRecord] :=
  (HandleTraceSpan_probability_one exampleLib exampleExporterFunc (exampleBuilder Float64.one)
    ⟨Float64.one⟩ _ (fun _ => rfl) rfl rfl rfl
    [exampleRecord, exampleBadRecord, exampleTaggedRecord] ()).trans (by decide)

theorem parent_decode_failure_not_dropped_witness :
    exampleLib.ParseSpanID exampleRecord.ParentSpanId = none ∧
      (spanOf exampleLib exampleRecord).ParentSpanID = Bytes.zero 8 ∧
      Event.ExportSpan (spanOf exampleLib exampleRecord)
        ∈ (HandleTraceSpan exampleLib ⟨⟨false⟩, some alwaysSampler⟩
            ([exampleBadRecord] ++ exampleRecord :: [exampleTaggedRecord]) ()).events :=
  ⟨by decide,
    (parent_decode_failure_not_dropped Unit exampleLib exampleRecord exampleTraceID exampleSpanID
      (by decide) (by decide) (by decide)).2.2.2.1,
    (parent_decode_failure_not_dropped Unit exampleLib exampleRecord exampleTraceID exampleSpanID
      (by decide) (by decide) (by decide)).2.2.2.2 ⟨false⟩ alwaysSampler [exampleBadRecord]
      [exampleTaggedRecord] () rfl⟩

theorem HandleTraceSpan_flush_witness :
    (HandleTraceSpan exampleLib ⟨⟨true⟩, some alwaysSampler⟩
        [exampleRecord, exampleTaggedRecord] ()).events.count Event.Flush = 1 ∧
      (HandleTraceSpan exampleLib ⟨⟨true⟩, some alwaysSampler⟩
        [exampleRecord, exampleTaggedRecord] ()).events.getLast? = some Event.Flush :=
  (HandleTraceSpan_flush exampleLib ⟨⟨true⟩, some alwaysSampler⟩
    [exampleRecord, exampleTaggedRecord] ()).2.1 (by decide) rfl

theorem buildSpanData_adds_status_code_attribute_witness :
    exampleRecord.HttpStatusCode > 0 ∧
      exampleRecord.SpanTags.get? attrHTTPStatusCode = none ∧
      (buildSpanData exampleLib exampleRecord SpanContext.zero SpanContext.zero).Attributes.get?
        attrHTTPStatusCode = some (GoValue.int64 404) :=
  ⟨by decide, by decide,
    (buildSpanData_adds_status_code_attribute exampleLib exampleRecord SpanContext.zero
      SpanContext.zero (by decide) (by decide)).1⟩

theorem buildSpanData_keeps_status_code_tag_witness :
    exampleTaggedRecord.SpanTags.get? attrHTTPStatusCode = some (GoValue.string "teapot") ∧
      (buildSpanData exampleLib exampleTaggedRecord SpanContext.zero
        SpanContext.zero).Attributes.get? attrHTTPStatusCode
        = some (GoValue.string "teapot") :=
  ⟨by decide,
    buildSpanData_keeps_status_code_tag exampleLib exampleTaggedRecord SpanContext.zero
      SpanContext.zero (GoValue.string "teapot") (by decide)⟩

theorem buildSpanData_zero_status_code_witness :
    exampleZeroRecord.HttpStatusCode = 0 ∧
      (buildSpanData exampleLib exampleZeroRecord SpanContext.zero SpanContext.zero).Status
        = Status.zero ∧
      (buildSpanData exampleLib exampleZeroRecord SpanContext.zero
        SpanContext.zero).Attributes.get? attrHTTPStatusCode = none :=
  ⟨rfl,
    (buildSpanData_zero_status_code exampleLib exampleZeroRecord SpanContext.zero
      SpanContext.zero rfl).1,
    (buildSpanData_zero_status_code exampleLib exampleZeroRecord SpanContext.zero
      SpanContext.zero rfl).2.2.2.2.2 (by decide)⟩

theorem buildSpanData_status_of_positive_code_witness :
    exampleRecord.HttpStatusCode > 0 ∧
      (buildSpanData (goLib exampleSprintv exampleCodeToStr) exampleRecord SpanContext.zero
        SpanContext.zero).Status.Code = ochttp.StatusCodeNotFound :=
  ⟨by decide,
    (buildSpanData_status_of_positive_code exampleLib exampleSprintv exampleCodeToStr
      exampleRecord SpanContext.zero SpanContext.zero (by decide)).2.2.2.2 rfl⟩

theorem buildSpanData_attribute_of_tag_witness :
    exampleRecord.SpanTags.get? "cached" = some (GoValue.other ⟨"bool", [1]⟩) ∧
      (buildSpanData exampleLib exampleRecord SpanContext.zero SpanContext.zero).Attributes.get?
        "cached" = some (GoValue.string "true") :=
  ⟨by decide,
    (buildSpanData_attribute_of_tag exampleLib exampleRecord SpanContext.zero SpanContext.zero
      "cached" (GoValue.other ⟨"bool", [1]⟩) (by decide)).2.2.2.2.2 ⟨"bool", [1]⟩ rfl⟩

theorem exported_span_is_sampled_witness :
    spanOf exampleLib exampleRecord
        ∈ exportedSpans (HandleTraceSpan exampleLib ⟨⟨true⟩, some alwaysSampler⟩
            [exampleBadRecord, exampleRecord] ()).events ∧
      (spanOf exampleLib exampleRecord).SpanContext.TraceOptions = 1 :=
  ⟨by decide,
    (exported_span_is_sampled exampleLib ⟨⟨true⟩, some alwaysSampler⟩
      [exampleBadRecord, exampleRecord] () (spanOf exampleLib exampleRecord) (by decide)).1⟩

theorem sampler_called_once_per_decoded_record_witness :
    exampleLib.ParseTraceID exampleRecord.TraceId = some exampleTraceID ∧
      exampleLib.ParseSpanID exampleRecord.SpanId = some exampleSpanID ∧
      samplerCalls (HandleTraceSpan exampleLib ⟨⟨true⟩, some alternatingSampler⟩
          [exampleBadRecord, exampleRecord, exampleBadSpanRecord] false).events
        = [samplingParameters exampleLib exampleRecord] :=
  ⟨by decide, by decide,
    (sampler_called_once_per_decoded_record exampleLib ⟨true⟩ alternatingSampler false
      [exampleBadRecord, exampleRecord, exampleBadSpanRecord] exampleRecord exampleTraceID
      exampleSpanID (by decide) (by decide)).1.trans (by decide)⟩

theorem Validate_error_iff_witness :
    Float64.le Float64.zero exampleHalf = true ∧ Float64.le exampleHalf Float64.one = true ∧
      Validate (exampleBuilder exampleHalf) = none :=
  ⟨by decide, by decide,
    (Validate_error_iff (exampleBuilder exampleHalf)).2.1 ⟨exampleHalf⟩ rfl (by decide)
      (by decide)⟩

theorem Validate_message_witness :
    (Validate (exampleBuilder exampleTwo)).isSome = true ∧
      Validate (exampleBuilder exampleTwo)
        = some [{ Field := "trace.sampleProbability"
                  Underlying := "sampling probability must be between 0 and 1 (inclusive)" }] :=
  ⟨by decide, Validate_message (exampleBuilder exampleTwo) (by decide)⟩

theorem undecodable_identifier_never_exported_witness :
    notHex 16 exampleBadSpanRecord.SpanId ∧
      exportedSpans (HandleTraceSpan exampleLib ⟨⟨true⟩, some alwaysSampler⟩
        [exampleBadSpanRecord] ()).events = [] :=
  ⟨Or.inr ⟨'g', by decide, by decide⟩,
    (undecodable_identifier_never_exported exampleSprintv exampleCodeToStr
      ⟨⟨true⟩, some alwaysSampler⟩ [] [] exampleBadSpanRecord ()
      (Or.inr (Or.inr ⟨'g', by decide, by decide⟩))).2.2.2.2.2⟩

theorem decode_undoes_encode_witness :
    exampleShortRecord.TraceId = String.mk (hexEncode [72, 72, 90, 57, 83, 187, 97, 36]) ∧
      exampleShortRecord.SpanId = String.mk (hexEncode exampleSpanID.bytes) ∧
      (spanOf exampleLib exampleShortRecord).SpanContext.TraceID.bytes
        = List.replicate (16 - 8) 0 ++ [72, 72, 90, 57, 83, 187, 97, 36] ∧
      (spanOf exampleLib exampleShortRecord).SpanContext.SpanID.bytes = exampleSpanID.bytes :=
  ⟨by decide, by decide,
    (decode_undoes_encode exampleSprintv exampleCodeToStr exampleShortRecord
      [72, 72, 90, 57, 83, 187, 97, 36] exampleSpanID.bytes (Or.inl rfl) rfl (by decide)
      (by decide)).2.2.2.2.2.2.1,
    (decode_undoes_encode exampleSprintv exampleCodeToStr exampleShortRecord
      [72, 72, 90, 57, 83, 187, 97, 36] exampleSpanID.bytes (Or.inl rfl) rfl (by decide)
      (by decide)).2.2.2.2.2.2.2⟩

end Trace

namespace Kubernetes


/-! ## Results of calls -/

@[simp] theorem Res.ok_bind {α β : Type} (a : α) (f : α → Res β) :
    (Res.ok a).bind f = f a := rfl

/-! ## Varints: size and encoding -/

theorem uint8_and_or (v : Nat) : uint8 (v &&& 0x7f ||| 0x80) = uint8 (v % 128 + 128) := by
  have h1 : v &&& 0x7f = v % 128 := Nat.and_pow_two_sub_one_eq_mod v 7
  have h2 : ∀ r, r < 128 → r ||| 0x80 = r + 128 := by decide
  rw [h1, h2 _ (Nat.mod_lt _ (by decide))]

theorem sovLoop_eq (fuel : Nat) : ∀ x n, x < 128 ^ fuel → 0 < fuel →
    sovLoop fuel x n = Res.ok (n + (varintBytes fuel x).length) := by
  induction fuel with
  | zero => intro x n _ h; omega
  | succ f ih =>
    intro x n hx _
    unfold sovLoop varintBytes
    simp only [Nat.shiftRight_eq_div_pow]
    by_cases h : x ≥ 128
    · have hd : x / 2 ^ 7 ≠ 0 := by
        have : x / 128 ≥ 1 := Nat.div_pos h (by decide)
        norm_num; omega
      have hx2 : x / 128 < 128 ^ f := by
        rw [Nat.div_lt_iff_lt_mul (by decide)]
        rw [pow_succ] at hx
        exact hx
      have hf : 0 < f := by
        rcases Nat.eq_zero_or_pos f with h0 | h0
        · rw [h0] at hx2
          have : x / 128 ≥ 1 := Nat.div_pos h (by decide)
          omega
        · exact h0
      rw [if_neg hd, if_pos h]
      have h128 : x / 2 ^ 7 = x / 128 := by norm_num
      rw [h128, ih _ _ hx2 hf]
      simp only [List.length_cons]
      congr 1
      omega
    · have hd : x / 2 ^ 7 = 0 := by
        norm_num; omega
      rw [if_pos hd, if_neg h]
      rfl

theorem sov_eq_length (x : Nat) : sovTemplateHandlerService x = (varint x).length := by
  unfold sovTemplateHandlerService varint
  have hx : x % 2 ^ 64 < 128 ^ 10 := by
    have := Nat.mod_lt x (show 2 ^ 64 > 0 by decide)
    have h2 : (2 : Nat) ^ 64 < 128 ^ 10 := by decide
    omega
  rw [sovLoop_eq 10 _ 0 hx (by decide)]
  simp

theorem set_append_length {α : Type} (pre : List α) (x b : α) (post : List α) :
    (pre ++ x :: post).set pre.length b = pre ++ b :: post := by
  induction pre with
  | nil => rfl
  | cons a t ih => simp only [List.cons_append, List.length_cons, List.set_cons_succ, ih]

theorem putByte_hole (pre : List (Fin 256)) (x b : Fin 256) (post : List (Fin 256)) :
    putByte (pre ++ x :: post) pre.length b = Res.ok (pre ++ b :: post) := by
  unfold putByte
  rw [if_pos (by simp), set_append_length]

theorem copyAt_hole (pre hole post : List (Fin 256)) (s : GoString)
    (h : hole.length = s.length) :
    copyAt (pre ++ (hole ++ post)) pre.length s = Res.ok (pre ++ (s ++ post), s.length) := by
  unfold copyAt
  rw [if_pos (by simp)]
  have hn : min ((pre ++ (hole ++ post)).length - pre.length) s.length = s.length := by
    simp only [List.length_append]
    omega
  simp only [hn, List.take_length, List.take_left']
  congr 2
  have : pre.length + s.length = (pre ++ hole).length := by simp [h]
  rw [← List.append_assoc pre hole post, this, List.drop_left', List.append_assoc]
  rfl

/-- The loop of `encodeVarintTemplateHandlerService` fills a hole of the right length with the
bytes of the varint. -/
theorem encodeVarintLoop_hole (fuel : Nat) :
    ∀ (pre hole post : List (Fin 256)) (v : Nat), v < 128 ^ fuel → 0 < fuel →
      hole.length = (varintBytes fuel v).length →
      encodeVarintLoop fuel (pre ++ (hole ++ post)) pre.length v
        = Res.ok (pre ++ (varintBytes fuel v ++ post),
            pre.length + (varintBytes fuel v).length) := by
  induction fuel with
  | zero => intro _ _ _ _ _ h; omega
  | succ f ih =>
    intro pre hole post v hv _ hlen
    unfold encodeVarintLoop
    unfold varintBytes at hlen ⊢
    have h128 : (1 : Nat) <<< 7 = 128 := by decide
    rw [h128]
    by_cases h : v ≥ 128
    · rw [if_pos h] at hlen ⊢
      rw [if_pos h]
      cases hole with
      | nil => simp at hlen
      | cons x hole2 =>
        have hv2 : v / 128 < 128 ^ f := by
          rw [Nat.div_lt_iff_lt_mul (by decide)]
          rw [pow_succ] at hv
          exact hv
        have hf : 0 < f := by
          rcases Nat.eq_zero_or_pos f with h0 | h0
          · rw [h0] at hv2
            have : v / 128 ≥ 1 := Nat.div_pos h (by decide)
            omega
          · exact h0
        have hl2 : hole2.length = (varintBytes f (v / 128)).length := by
          simpa using hlen
        rw [List.cons_append, putByte_hole, Res.ok_bind, uint8_and_or]
        have hpre : pre ++ uint8 (v % 128 + 128) :: (hole2 ++ post)
            = (pre ++ [uint8 (v % 128 + 128)]) ++ (hole2 ++ post) := by simp
        have hlen1 : pre.length + 1 = (pre ++ [uint8 (v % 128 + 128)]).length := by simp
        have hshift : v >>> 7 = v / 128 := by
          simp [Nat.shiftRight_eq_div_pow]
        rw [hpre, hlen1, hshift, ih _ hole2 post (v / 128) hv2 hf hl2]
        simp only [List.append_assoc, List.singleton_append, List.length_append,
          List.length_singleton, List.length_cons, List.cons_append, Nat.add_assoc,
          Nat.add_comm 1, List.nil_append, List.length_nil, Nat.zero_add]
    · rw [if_neg h] at hlen ⊢
      rw [if_neg h]
      cases hole with
      | nil => simp at hlen
      | cons x hole2 =>
        have hl2 : hole2 = [] := by
          simpa using hlen
        rw [hl2, List.cons_append, putByte_hole, Res.ok_bind]
        simp

theorem encodeVarint_hole (pre hole post : List (Fin 256)) (v : Nat)
    (hlen : hole.length = (varint v).length) :
    encodeVarintTemplateHandlerService (pre ++ (hole ++ post)) pre.length v
      = Res.ok (pre ++ (varint v ++ post), pre.length + (varint v).length) := by
  unfold encodeVarintTemplateHandlerService varint
  have hx : v % 2 ^ 64 < 128 ^ 10 := by
    have := Nat.mod_lt v (show 2 ^ 64 > 0 by decide)
    have h2 : (2 : Nat) ^ 64 < 128 ^ 10 := by decide
    omega
  exact encodeVarintLoop_hole 10 pre hole post _ hx (by decide) hlen


/-! ## Writing into a buffer -/

theorem length_splice (d : List (Fin 256)) (i : Nat) (a : List (Fin 256))
    (h : i + a.length ≤ d.length) : (splice d i a).length = d.length := by
  unfold splice
  simp only [List.length_append, List.length_take, List.length_drop]
  omega

theorem splice_eq_hole (d : List (Fin 256)) (i n : Nat) :
    d = d.take i ++ ((d.drop i).take n ++ d.drop (i + n)) := by
  have h1 : (d.drop i).take n ++ d.drop (i + n) = d.drop i := by
    rw [← List.drop_drop]
    exact List.take_append_drop n (d.drop i)
  rw [h1, List.take_append_drop]

theorem splice_splice (d : List (Fin 256)) (i : Nat) (a b : List (Fin 256))
    (h : i + a.length + b.length ≤ d.length) :
    splice (splice d i a) (i + a.length) b = splice d i (a ++ b) := by
  unfold splice
  have hl : (d.take i ++ a).length = i + a.length := by
    simp only [List.length_append, List.length_take]
    omega
  have h1 : (d.take i ++ a ++ d.drop (i + a.length)).take (i + a.length) = d.take i ++ a :=
    List.take_left' hl
  have h2 : (d.take i ++ a ++ d.drop (i + a.length)).drop (i + a.length + b.length)
      = d.drop (i + (a ++ b).length) := by
    rw [← List.drop_drop, List.drop_left' hl, List.drop_drop, List.length_append]
    congr 1
    omega
  rw [h1, h2]
  simp only [List.append_assoc]

theorem splice_nil (d : List (Fin 256)) (i : Nat) : splice d i [] = d := by
  unfold splice
  simp

theorem putByte_splice (d : List (Fin 256)) (i : Nat) (b : Fin 256) (h : i < d.length) :
    putByte d i b = Res.ok (splice d i [b]) := by
  have hd := splice_eq_hole d i 1
  have hlen : (d.take i).length = i := by
    rw [List.length_take]; omega
  cases hh : (d.drop i).take 1 with
  | nil =>
    have : ((d.drop i).take 1).length = 1 := by
      rw [List.length_take, List.length_drop]; omega
    rw [hh] at this
    simp at this
  | cons x t =>
    have ht : t = [] := by
      have : ((d.drop i).take 1).length = 1 := by
        rw [List.length_take, List.length_drop]; omega
      rw [hh] at this
      simpa using this
    rw [hh, ht] at hd
    have key := putByte_hole (d.take i) x b (d.drop (i + 1))
    rw [hlen] at key
    have hd2 : d = d.take i ++ x :: d.drop (i + 1) := by simpa using hd
    rw [← hd2] at key
    rw [key]
    unfold splice
    simp

theorem copyAt_splice (d : List (Fin 256)) (i : Nat) (s : GoString)
    (h : i + s.length ≤ d.length) : copyAt d i s = Res.ok (splice d i s, s.length) := by
  have hd := splice_eq_hole d i s.length
  have hlen : (d.take i).length = i := by
    rw [List.length_take]; omega
  have hl2 : ((d.drop i).take s.length).length = s.length := by
    rw [List.length_take, List.length_drop]; omega
  have key := copyAt_hole (d.take i) ((d.drop i).take s.length) (d.drop (i + s.length)) s hl2
  rw [hlen, ← hd] at key
  rw [key]
  unfold splice
  simp

theorem encodeVarint_splice (d : List (Fin 256)) (i v : Nat)
    (h : i + (varint v).length ≤ d.length) :
    encodeVarintTemplateHandlerService d i v
      = Res.ok (splice d i (varint v), i + (varint v).length) := by
  have hd := splice_eq_hole d i (varint v).length
  have hlen : (d.take i).length = i := by
    rw [List.length_take]; omega
  have hl2 : ((d.drop i).take (varint v).length).length = (varint v).length := by
    rw [List.length_take, List.length_drop]; omega
  have key := encodeVarint_hole (d.take i) ((d.drop i).take (varint v).length)
    (d.drop (i + (varint v).length)) v hl2
  rw [hlen, ← hd] at key
  rw [key]
  unfold splice
  simp


/-! ## `MarshalTo` writes the encoding -/

theorem Res.bind_assoc {α β γ : Type} (x : Res α) (f : α → Res β) (g : β → Res γ) :
    (x.bind f).bind g = x.bind fun a => (f a).bind g := by
  cases x <;> rfl

theorem Writes.seq {f g : List (Fin 256) × Nat → Res (List (Fin 256) × Nat)}
    {a b : List (Fin 256)} (hf : Writes f a) (hg : Writes g b) :
    Writes (fun st => (f st).bind g) (a ++ b) := by
  intro d i h
  simp only [List.length_append] at h
  have h1 := hf d i (by omega)
  have hl : (splice d i a).length = d.length := length_splice d i a (by omega)
  have h2 := hg (splice d i a) (i + a.length) (by omega)
  simp only [h1, Res.ok_bind, h2]
  rw [splice_splice d i a b (by omega), List.length_append, Nat.add_assoc]

theorem Writes.skip : Writes (fun st => Res.ok st) [] := by
  intro d i _
  simp [splice_nil]

theorem writes_wByte (b : Fin 256) : Writes (wByte b) [b] := by
  intro d i h
  simp only [List.length_singleton] at h
  simp only [wByte, putByte_splice d i b (by omega), Res.ok_bind, List.length_singleton]

theorem writes_wVarint (v : Nat) : Writes (wVarint v) (varint v) := by
  intro d i h
  exact encodeVarint_splice d i v h

theorem writes_wCopy (s : GoString) : Writes (wCopy s) s := by
  intro d i h
  simp only [wCopy, copyAt_splice d i s h, Res.ok_bind]

theorem marshalString_eq (tag : Fin 256) (s : GoString) :
    marshalString tag s = fun st =>
      if s.length > 0 then
        ((wByte tag st).bind fun st => wVarint s.length st).bind fun st => wCopy s st
      else Res.ok st := by
  funext st
  unfold marshalString
  by_cases hs : s.length > 0
  · simp only [if_pos hs, wByte, wVarint, wCopy, Res.bind_assoc, Res.ok_bind]
  · simp only [if_neg hs]

theorem writes_marshalString (tag : Fin 256) (s : GoString) :
    Writes (marshalString tag s) (encString tag s) := by
  rw [marshalString_eq]
  unfold encString
  by_cases hs : s.length > 0
  · simp only [if_pos hs]
    have := ((writes_wByte tag).seq (writes_wVarint s.length)).seq (writes_wCopy s)
    simpa using this
  · simp only [if_neg hs]
    exact Writes.skip

theorem marshalEntry_eq (mp : StringMap) (k : GoString) :
    (fun st => marshalEntry mp st k) = fun st =>
      (((((((((((wByte 0x82 st).bind fun st => wByte 0xd3 st).bind fun st =>
        wByte 0xe4 st).bind fun st => wByte 0x93 st).bind fun st => wByte 0x2 st).bind fun st =>
        wVarint (mapEntrySize k ((mp.get? k).getD [])) st).bind fun st =>
        wByte 0xa st).bind fun st => wVarint k.length st).bind fun st => wCopy k st).bind
        fun st => wByte 0x12 st).bind fun st =>
        wVarint ((mp.get? k).getD []).length st).bind fun st =>
        wCopy ((mp.get? k).getD []) st := by
  funext st
  unfold marshalEntry
  simp only [wByte, wVarint, wCopy, Res.bind_assoc, Res.ok_bind, Nat.add_assoc, Nat.reduceAdd]

theorem writes_marshalEntry (mp : StringMap) (k : GoString) :
    Writes (fun st => marshalEntry mp st k) (encEntry k ((mp.get? k).getD [])) := by
  rw [marshalEntry_eq]
  have := (((((((((((writes_wByte 0x82).seq (writes_wByte 0xd3)).seq (writes_wByte 0xe4)).seq
    (writes_wByte 0x93)).seq (writes_wByte 0x2)).seq
    (writes_wVarint (mapEntrySize k ((mp.get? k).getD [])))).seq (writes_wByte 0xa)).seq
    (writes_wVarint k.length)).seq (writes_wCopy k)).seq (writes_wByte 0x12)).seq
    (writes_wVarint ((mp.get? k).getD []).length)).seq (writes_wCopy ((mp.get? k).getD []))
  unfold encEntry
  simpa using this

theorem writes_marshalEntries (mp : StringMap) (ks : List GoString) :
    Writes (marshalEntries mp ks) (encEntries (ks.map fun k => (k, (mp.get? k).getD []))) := by
  induction ks with
  | nil => exact Writes.skip
  | cons k ks ih =>
    have := (writes_marshalEntry mp k).seq ih
    exact this


theorem lookup_of_mem (l : List (GoString × GoString)) (hl : (l.map Prod.fst).Nodup)
    (k v : GoString) (h : (k, v) ∈ l) : l.lookup k = some v := by
  induction l with
  | nil => simp at h
  | cons e t ih =>
    obtain ⟨a, b⟩ := e
    simp only [List.map_cons, List.nodup_cons] at hl
    rcases List.mem_cons.1 h with heq | hmem
    · cases heq
      simp [List.lookup_cons]
    · have hne : k ≠ a := by
        intro hka
        apply hl.1
        rw [← hka]
        exact List.mem_map.2 ⟨(k, v), hmem, rfl⟩
      have h1 : (k == a) = false := by simpa using hne
      simp only [List.lookup_cons, h1]
      exact ih hl.2 hmem

theorem entries_of_keys (mp : StringMap) :
    ((mp.entries.map Prod.fst).map fun k => (k, (mp.get? k).getD [])) = mp.entries := by
  rw [List.map_map]
  conv_rhs => rw [← List.map_id mp.entries]
  apply List.map_congr_left
  intro e he
  obtain ⟨k, v⟩ := e
  simp only [Function.comp, StringMap.get?, lookup_of_mem mp.entries mp.nodupKeys k v he,
    Option.getD_some, id]

theorem writes_bindings (m : InstanceParam) :
    Writes (fun st =>
      match m.AttributeBindings with
      | none => Res.ok st
      | some mp =>
        if mp.entries.length > 0 then marshalEntries mp (mp.entries.map Prod.fst) st
        else Res.ok st) (encEntries (bindingsOf m)) := by
  unfold bindingsOf
  cases hb : m.AttributeBindings with
  | none => exact Writes.skip
  | some mp =>
    simp only
    have hw := writes_marshalEntries mp (mp.entries.map Prod.fst)
    rw [entries_of_keys] at hw
    by_cases hlen : mp.entries.length > 0
    · simp only [if_pos hlen]
      exact hw
    · simp only [if_neg hlen]
      have : mp.entries = [] := List.length_eq_zero.1 (by omega)
      rw [this]
      exact Writes.skip

/-- `MarshalTo` writes the encoding of the message at the start of a buffer that has room for
it, and returns its length. -/
theorem MarshalTo_eq (m : InstanceParam) (d : List (Fin 256))
    (h : (encode m).length ≤ d.length) :
    MarshalTo m d = Res.ok (splice d 0 (encode m), (encode m).length) := by
  have hw := (writes_marshalString 0xa m.SourceUid).seq
    ((writes_marshalString 0x12 m.SourceIp).seq
      ((writes_marshalString 0x1a m.DestinationUid).seq
        ((writes_marshalString 0x22 m.DestinationIp).seq (writes_bindings m))))
  have := hw d 0 (by simpa [encode] using h)
  simp only [Nat.zero_add] at this
  unfold MarshalTo
  exact this

theorem sizeString_eq (tag : Fin 256) (s : GoString) :
    sizeString s = (encString tag s).length := by
  unfold sizeString encString
  by_cases hs : s.length > 0
  · simp only [if_pos hs, sov_eq_length, List.length_cons, List.length_append]
    omega
  · simp only [if_neg hs, List.length_nil]

theorem sizeEntry_eq (k v : GoString) : sizeEntry k v = (encEntry k v).length := by
  unfold sizeEntry encEntry
  simp only [sov_eq_length, List.length_cons, List.length_append, List.length_nil]
  unfold mapEntrySize
  simp only [sov_eq_length]
  omega

theorem foldl_sizeEntry (l : List (GoString × GoString)) (n : Nat) :
    l.foldl (fun n kv => n + sizeEntry kv.1 kv.2) n = n + (encEntries l).length := by
  induction l generalizing n with
  | nil => rfl
  | cons e t ih =>
    rw [List.foldl_cons, ih]
    simp only [encEntries, List.length_append, sizeEntry_eq]
    omega

/-- `Size` is the length of the encoding. -/
theorem Size_eq (m : InstanceParam) : Size m = (encode m).length := by
  unfold Size encode bindingsOf
  simp only [List.length_append, sizeString_eq 0xa m.SourceUid, sizeString_eq 0x12 m.SourceIp,
    sizeString_eq 0x1a m.DestinationUid, sizeString_eq 0x22 m.DestinationIp]
  cases hb : m.AttributeBindings with
  | none =>
    simp only [encEntries, List.length_nil]
    omega
  | some mp =>
    simp only
    by_cases hlen : mp.entries.length > 0
    · rw [if_pos hlen, foldl_sizeEntry]
      omega
    · rw [if_neg hlen]
      have : mp.entries = [] := List.length_eq_zero.1 (by omega)
      rw [this]
      simp only [encEntries, List.length_nil]
      omega

/-- `Marshal` returns the encoding. -/
theorem Marshal_eq (m : InstanceParam) : Marshal m = Res.ok (encode m) := by
  unfold Marshal
  have hlen : (List.replicate (Size m) (0 : Fin 256)).length = (encode m).length := by
    rw [List.length_replicate, Size_eq]
  have hm := MarshalTo_eq m (List.replicate (Size m) (0 : Fin 256)) (by omega)
  have h1 : splice (List.replicate (Size m) (0 : Fin 256)) 0 (encode m) = encode m := by
    unfold splice
    rw [Nat.zero_add, List.drop_of_length_le (by omega)]
    simp
  rw [h1] at hm
  simp only [hm, Res.ok_bind]
  unfold slice
  simp


/-! ## Reading varints and strings -/

theorem getElem?_of_drop (D : List (Fin 256)) (i : Nat) (b : Fin 256) (rest : List (Fin 256))
    (h : D.drop i = b :: rest) : D[i]? = some b ∧ i < D.length := by
  have h0 : (D.drop i)[0]? = some b := by rw [h]; simp
  rw [List.getElem?_drop] at h0
  simp only [Nat.add_zero] at h0
  refine ⟨h0, ?_⟩
  by_contra hge
  rw [List.drop_of_length_le (by omega)] at h
  exact List.noConfusion h

theorem index_of_drop (D : List (Fin 256)) (i : Nat) (b : Fin 256) (rest : List (Fin 256))
    (h : D.drop i = b :: rest) : index D (i : Int) = Res.ok b := by
  unfold index
  rw [if_pos (Int.natCast_nonneg i), Int.toNat_natCast, (getElem?_of_drop D i b rest h).1]

theorem drop_append_length (D : List (Fin 256)) (i : Nat) (X rest : List (Fin 256))
    (h : D.drop i = X ++ rest) : D.drop (i + X.length) = rest := by
  rw [← List.drop_drop, h, List.drop_left]

theorem or_shift_eq_add (wire r shift : Nat) (hw : wire < 2 ^ shift)
    (hr : wire + r * 2 ^ shift < 2 ^ 64) :
    wire ||| (r <<< shift) % 2 ^ 64 = wire + r * 2 ^ shift := by
  have h1 : r <<< shift = r * 2 ^ shift := Nat.shiftLeft_eq r shift
  have h2 : r * 2 ^ shift % 2 ^ 64 = r * 2 ^ shift := Nat.mod_eq_of_lt (by omega)
  rw [h1, h2, Nat.lor_comm, Nat.mul_comm, ← Nat.mul_add_lt_is_or hw, Nat.add_comm]

theorem uint8_val_of_lt (v : Nat) (h : v < 256) : (uint8 v).val = v := by
  unfold uint8
  exact Nat.mod_eq_of_lt h

theorem readVarint_small (D : List (Fin 256)) (f shift i wire v : Nat)
    (rest : List (Fin 256)) (hv : v < 128) (hw : wire < 2 ^ shift)
    (hsum : wire + v * 2 ^ shift < 2 ^ 64) (hshift : shift < 64)
    (hD : D.drop i = uint8 v :: rest) :
    readVarint D (f + 1) shift (i : Int) wire
      = Res.ok (wire + v * 2 ^ shift, ((i + 1 : Nat) : Int)) := by
  have hb := getElem?_of_drop D i (uint8 v) rest hD
  have hval : (uint8 v).val = v := uint8_val_of_lt v (by omega)
  have hand : v &&& 0x7F = v := by
    have := Nat.and_pow_two_sub_one_eq_mod v 7
    rw [show (2 : Nat) ^ 7 - 1 = 0x7F by decide] at this
    rw [this]; exact Nat.mod_eq_of_lt (by omega)
  unfold readVarint
  rw [if_neg (by omega), if_neg (by omega), index_of_drop D i (uint8 v) rest hD, Res.ok_bind]
  simp only [hval, hand]
  rw [if_pos (by omega), or_shift_eq_add wire v shift hw hsum]
  simp

/-- The loop reading a varint returns the value whose bytes it meets. -/
theorem readVarint_spec (D : List (Fin 256)) (n : Nat) :
    ∀ (fuel shift i wire v : Nat) (rest : List (Fin 256)), n + 1 ≤ fuel → v < 128 ^ (n + 1) →
      wire < 2 ^ shift → wire + v * 2 ^ shift < 2 ^ 64 → shift < 64 →
      D.drop i = varintBytes (n + 1) v ++ rest →
      readVarint D fuel shift (i : Int) wire
        = Res.ok (wire + v * 2 ^ shift, ((i + (varintBytes (n + 1) v).length : Nat) : Int)) := by
  induction n with
  | zero =>
    intro fuel shift i wire v rest hfuel hv hw hsum hshift hD
    obtain ⟨f, rfl⟩ : ∃ f, fuel = f + 1 := ⟨fuel - 1, by omega⟩
    have hv128 : ¬ v ≥ 128 := by simpa using hv
    unfold varintBytes at hD ⊢
    rw [if_neg hv128] at hD ⊢
    exact readVarint_small D f shift i wire v rest (by omega) hw hsum hshift (by simpa using hD)
  | succ n ih =>
    intro fuel shift i wire v rest hfuel hv hw hsum hshift hD
    obtain ⟨f, rfl⟩ : ∃ f, fuel = f + 1 := ⟨fuel - 1, by omega⟩
    by_cases hv128 : v ≥ 128
    · unfold varintBytes at hD ⊢
      rw [if_pos hv128] at hD ⊢
      rw [List.cons_append] at hD
      have hb := getElem?_of_drop D i _ _ hD
      have hval : (uint8 (v % 128 + 128)).val = v % 128 + 128 :=
        uint8_val_of_lt _ (by omega)
      have hand : (v % 128 + 128) &&& 0x7F = v % 128 := by
        have := Nat.and_pow_two_sub_one_eq_mod (v % 128 + 128) 7
        rw [show (2 : Nat) ^ 7 - 1 = 0x7F by decide] at this
        rw [this]; norm_num
      have hpow : (2 : Nat) ^ (shift + 7) = 2 ^ shift * 128 := by
        rw [pow_add]; norm_num
      have hdiv : v / 128 < 128 ^ (n + 1) := by
        rw [Nat.div_lt_iff_lt_mul (by decide)]
        rw [pow_succ] at hv
        exact hv
      have hdecomp : v = v / 128 * 128 + v % 128 := (Nat.div_add_mod' v 128).symm
      have hmul : v * 2 ^ shift
          = v / 128 * (2 ^ shift * 128) + v % 128 * 2 ^ shift := by
        conv_lhs => rw [hdecomp]
        ring
      have hpos : 0 < 2 ^ shift := Nat.two_pow_pos shift
      have hq : v / 128 ≥ 1 := Nat.div_pos hv128 (by decide)
      have hqm : v / 128 * (2 ^ shift * 128) ≥ 2 ^ shift * 128 := Nat.le_mul_of_pos_left _ hq
      have hw2 : wire + v % 128 * 2 ^ shift < 2 ^ (shift + 7) := by
        rw [hpow]
        have : v % 128 * 2 ^ shift ≤ 127 * 2 ^ shift :=
          Nat.mul_le_mul_right _ (by omega)
        omega
      have hshift2 : shift + 7 < 64 := by
        by_contra hc
        have : (2 : Nat) ^ 64 ≤ 2 ^ (shift + 7) := Nat.pow_le_pow_right (by decide) (by omega)
        rw [hpow] at this
        omega
      unfold readVarint
      rw [if_neg (by omega), if_neg (by omega), index_of_drop D i _ _ hD, Res.ok_bind]
      simp only [hval, hand]
      rw [if_neg (by omega), or_shift_eq_add wire (v % 128) shift hw (by omega)]
      have hD2 : D.drop (i + 1) = varintBytes (n + 1) (v / 128) ++ rest := by
        have := drop_append_length D i [uint8 (v % 128 + 128)] _ (by simpa using hD)
        simpa using this
      have hih := ih f (shift + 7) (i + 1) (wire + v % 128 * 2 ^ shift) (v / 128) rest
        (by omega) hdiv hw2 (by rw [hpow]; omega) hshift2 hD2
      have hcast : ((i : Int) + 1) = ((i + 1 : Nat) : Int) := by simp
      rw [hcast, hih]
      simp only [List.length_cons]
      congr 2
      · rw [hpow]; omega
      · omega
    · unfold varintBytes at hD ⊢
      rw [if_neg hv128] at hD ⊢
      exact readVarint_small D f shift i wire v rest (by omega) hw hsum hshift
        (by simpa using hD)


theorem length_of_drop (D : List (Fin 256)) (i : Nat) (R : List (Fin 256))
    (h : D.drop i = R) (hR : 0 < R.length) : i + R.length = D.length := by
  have := congrArg List.length h
  rw [List.length_drop] at this
  omega

theorem varint_length_pos (v : Nat) : 0 < (varint v).length := by
  unfold varint varintBytes
  split <;> simp

theorem readVarint_varint (D : List (Fin 256)) (i v : Nat) (rest : List (Fin 256))
    (hv : v < 2 ^ 64) (hD : D.drop i = varint v ++ rest) :
    readVarint D 11 0 (i : Int) 0 = Res.ok (v, ((i + (varint v).length : Nat) : Int)) := by
  have hmod : v % 2 ^ 64 = v := Nat.mod_eq_of_lt hv
  unfold varint at hD ⊢
  rw [hmod] at hD ⊢
  have h128 : v < 128 ^ (9 + 1) := by
    have h2 : (2 : Nat) ^ 64 < 128 ^ 10 := by decide
    omega
  have := readVarint_spec D 9 11 0 i 0 v rest (by omega) h128 (by decide) (by simpa using hv)
    (by decide) hD
  simpa using this

theorem wrapInt_of_lt (x : Int) (h0 : 0 ≤ x) (h1 : x < 2 ^ 63) : wrapInt x = x := by
  unfold wrapInt
  omega

theorem toInt64_of_lt (x : Nat) (h : x < 2 ^ 63) : toInt64 x = x := by
  unfold toInt64
  have hm : x % 2 ^ 64 = x := Nat.mod_eq_of_lt (by omega)
  rw [hm]
  exact wrapInt_of_lt _ (by omega) (by omega)

theorem slice_of_drop (D : List (Fin 256)) (i : Nat) (s rest : List (Fin 256))
    (hD : D.drop i = s ++ rest) (hi : i + s.length ≤ D.length) :
    slice D (i : Int) ((i + s.length : Nat) : Int) = Res.ok s := by
  unfold slice
  rw [if_pos ⟨by omega, by omega, by omega⟩]
  have h1 : ((i : Int)).toNat = i := Int.toNat_natCast i
  have h2 : (((i + s.length : Nat) : Int) - (i : Int)).toNat = s.length := by omega
  rw [h1, h2, hD, List.take_left]

/-- The block that reads a string returns the string it meets behind its length. -/
theorem readString_spec (D : List (Fin 256)) (i : Nat) (s rest : List (Fin 256))
    (hlen : D.length < 2 ^ 63) (hD : D.drop i = varint s.length ++ (s ++ rest)) :
    readString D (i : Int)
      = Res.ok (s, ((i + ((varint s.length).length + s.length) : Nat) : Int)) := by
  have hpos := varint_length_pos s.length
  have htot := length_of_drop D i _ hD (by simp; omega)
  simp only [List.length_append] at htot
  have hs : s.length < 2 ^ 63 := by omega
  have hD2 : D.drop (i + (varint s.length).length) = s ++ rest :=
    drop_append_length D i _ _ hD
  unfold readString
  rw [readVarint_varint D i s.length (s ++ rest) (by omega) hD, Res.ok_bind]
  simp only [toInt64_of_lt s.length hs]
  rw [if_neg (by omega)]
  have hw : wrapInt (((i + (varint s.length).length : Nat) : Int) + (s.length : Int))
      = ((i + (varint s.length).length + s.length : Nat) : Int) := by
    rw [wrapInt_of_lt _ (by omega) (by omega)]
    push_cast
    ring
  rw [hw, if_neg (by omega),
    slice_of_drop D (i + (varint s.length).length) s rest hD2 (by omega), Res.ok_bind,
    Nat.add_assoc]


/-! ## Reading one field -/

theorem readVarint_tag (D : List (Fin 256)) (i : Nat) (t : Fin 256) (rest : List (Fin 256))
    (ht : t.val < 128) (hD : D.drop i = t :: rest) :
    readVarint D 11 0 (i : Int) 0 = Res.ok (t.val, ((i + 1 : Nat) : Int)) := by
  have ht8 : uint8 t.val = t := by
    apply Fin.ext
    exact uint8_val_of_lt t.val (by omega)
  have := readVarint_small D 10 0 i 0 t.val rest ht (by decide) (by simp; omega) (by decide)
    (by rw [ht8]; exact hD)
  simpa using this

theorem unmarshalField_string (D : List (Fin 256)) (m : InstanceParam) (i : Nat)
    (it : Item) (s rest : List (Fin 256)) (t : Fin 256) (hlen : D.length < 2 ^ 63)
    (hit : (it = Item.SourceUid s ∧ t = 0xa) ∨ (it = Item.SourceIp s ∧ t = 0x12) ∨
      (it = Item.DestinationUid s ∧ t = 0x1a) ∨ (it = Item.DestinationIp s ∧ t = 0x22))
    (hD : D.drop i = t :: (varint s.length ++ s) ++ rest) :
    unmarshalField D m (i : Int)
      = Res.ok (it.apply m, ((i + (t :: (varint s.length ++ s)).length : Nat) : Int)) := by
  have ht : t.val < 128 := by
    rcases hit with ⟨_, h⟩ | ⟨_, h⟩ | ⟨_, h⟩ | ⟨_, h⟩ <;> rw [h] <;> decide
  have hD1 : D.drop i = t :: (varint s.length ++ (s ++ rest)) := by simpa using hD
  have hD2 : D.drop (i + 1) = varint s.length ++ (s ++ rest) := by
    have := drop_append_length D i [t] _ (by simpa using hD1)
    simpa using this
  have hrs := readString_spec D (i + 1) s rest hlen hD2
  unfold unmarshalField
  rw [readVarint_tag D i t _ ht hD1, Res.ok_bind]
  simp only [hrs, Res.ok_bind]
  have hidx : i + 1 + ((varint s.length).length + s.length)
      = i + (t :: (varint s.length ++ s)).length := by
    simp only [List.length_cons, List.length_append]
    omega
  rw [hidx]
  rcases hit with ⟨h1, h2⟩ | ⟨h1, h2⟩ | ⟨h1, h2⟩ | ⟨h1, h2⟩ <;> subst h1 <;> subst h2 <;> rfl


theorem mapEntrySize_eq (k v : GoString) :
    mapEntrySize k v
      = ((0xa : Fin 256) :: (varint k.length ++ k) ++ (0x12 :: (varint v.length ++ v))).length := by
  unfold mapEntrySize
  simp only [sov_eq_length, List.length_cons, List.length_append]
  omega

/-- The loop over a map entry that holds a key field and a value field returns them. -/
theorem entryLoop_spec (D : List (Fin 256)) (f j : Nat) (k v a b rest : List (Fin 256))
    (hlen : D.length < 2 ^ 63)
    (hD : D.drop j
      = (0xa : Fin 256) :: (varint k.length ++ k) ++ (0x12 :: (varint v.length ++ v)) ++ rest) :
    entryLoop D ((j + mapEntrySize k v : Nat) : Int) (f + 3) (j : Int) a b = Res.ok (k, v) := by
  have hsz := mapEntrySize_eq k v
  simp only [List.length_cons, List.length_append] at hsz
  have hk := varint_length_pos k.length
  have hv := varint_length_pos v.length
  -- the key field
  have hD1 : D.drop j
      = (0xa : Fin 256) :: (varint k.length ++ (k ++ (0x12 :: (varint v.length ++ v) ++ rest))) := by
    simpa using hD
  have hD2 : D.drop (j + 1)
      = varint k.length ++ (k ++ (0x12 :: (varint v.length ++ v) ++ rest)) := by
    have := drop_append_length D j [0xa] _ (by simpa using hD1)
    simpa using this
  have hrk := readString_spec D (j + 1) k _ hlen hD2
  -- the value field
  have hD3 : D.drop (j + 1 + ((varint k.length).length + k.length))
      = (0x12 : Fin 256) :: (varint v.length ++ (v ++ rest)) := by
    have := drop_append_length D (j + 1) (varint k.length ++ k) _ (by simpa using hD2)
    simpa using this
  have hD4 : D.drop (j + 1 + ((varint k.length).length + k.length) + 1)
      = varint v.length ++ (v ++ rest) := by
    have := drop_append_length D _ [0x12] _ (by simpa using hD3)
    simpa using this
  have hrv := readString_spec D _ v rest hlen hD4
  have hend : j + 1 + ((varint k.length).length + k.length) + 1
      + ((varint v.length).length + v.length) = j + mapEntrySize k v := by
    omega
  rw [hend] at hrv
  unfold entryLoop
  rw [if_pos (by omega), readVarint_tag D j 0xa _ (by decide) hD1, Res.ok_bind]
  have hf1 : toInt32 ((0xa : Fin 256).val >>> 3) = 1 := by decide
  simp only [hf1, if_true, hrk, Res.ok_bind]
  unfold entryLoop
  rw [if_pos (by omega), readVarint_tag D _ 0x12 _ (by decide) hD3, Res.ok_bind]
  have hf2 : toInt32 ((0x12 : Fin 256).val >>> 3) = 2 := by decide
  simp only [hf2, hrv, Res.ok_bind]
  rw [if_neg (by decide), if_pos trivial]
  unfold entryLoop
  rw [if_neg (by omega)]

theorem varint_binding_tag : varint 578365826 = [0x82, 0xd3, 0xe4, 0x93, 0x2] := by decide

theorem unmarshalField_binding (D : List (Fin 256)) (m : InstanceParam) (i : Nat)
    (k v rest : List (Fin 256)) (hlen : D.length < 2 ^ 63)
    (hD : D.drop i = encEntry k v ++ rest) :
    unmarshalField D m (i : Int)
      = Res.ok ((Item.binding k v).apply m, ((i + (encEntry k v).length : Nat) : Int)) := by
  have hsz := mapEntrySize_eq k v
  simp only [List.length_cons, List.length_append] at hsz
  have htot := length_of_drop D i _ hD (by simp [encEntry])
  unfold encEntry at hD htot ⊢
  rw [← varint_binding_tag] at hD htot ⊢
  simp only [List.length_append, List.length_cons] at htot
  have hD1 : D.drop i = varint 578365826 ++ (varint (mapEntrySize k v) ++
      ((0xa : Fin 256) :: (varint k.length ++ k) ++ (0x12 :: (varint v.length ++ v)) ++ rest)) := by
    simpa using hD
  have hD2 := drop_append_length D i _ _ hD1
  have hD3 := drop_append_length D _ _ _ hD2
  have htag : (varint 578365826).length = 5 := by rw [varint_binding_tag]; rfl
  have hmv := varint_length_pos (mapEntrySize k v)
  have hms : mapEntrySize k v < 2 ^ 63 := by omega
  have hfuel : ∃ f, D.length + 1 = f + 3 := ⟨D.length - 2, by omega⟩
  obtain ⟨f, hf⟩ := hfuel
  unfold unmarshalField
  rw [readVarint_varint D i 578365826 _ (by decide) hD1, Res.ok_bind]
  have hfn : toInt32 (578365826 >>> 3) = 72295728 := by decide
  have hwt : toInt64 (578365826 &&& 0x7) = 2 := by decide
  simp only [hfn, hwt]
  rw [if_neg (by decide), if_neg (by decide), if_neg (by decide), if_neg (by decide),
    if_neg (by decide), if_neg (by decide), if_pos trivial, if_neg (by decide)]
  unfold readVarintInt
  rw [readVarint_varint D _ (mapEntrySize k v) _ (by omega) hD2, Res.ok_bind, Res.ok_bind]
  simp only [toInt64_of_lt _ hms]
  rw [if_neg (by omega)]
  have hw : wrapInt (((i + (varint 578365826).length + (varint (mapEntrySize k v)).length
      : Nat) : Int) + (mapEntrySize k v : Int))
      = ((i + (varint 578365826).length + (varint (mapEntrySize k v)).length
          + mapEntrySize k v : Nat) : Int) := by
    rw [wrapInt_of_lt _ (by omega) (by omega)]
    push_cast
    ring
  rw [hw]
  clear hw hfn hwt
  rw [if_neg (by omega), hf, entryLoop_spec D f _ k v [] [] rest hlen hD3, Res.ok_bind]
  refine congrArg Res.ok (Prod.ext rfl (congrArg Nat.cast ?_))
  simp only [List.length_append, List.length_cons]
  omega


/-! ## Reading a whole message -/

theorem Item.encode_length_pos (it : Item) : 0 < it.encode.length := by
  cases it <;> simp [Item.encode, encEntry]

theorem unmarshalField_item (D : List (Fin 256)) (m : InstanceParam) (i : Nat) (it : Item)
    (rest : List (Fin 256)) (hlen : D.length < 2 ^ 63) (hD : D.drop i = it.encode ++ rest) :
    unmarshalField D m (i : Int)
      = Res.ok (it.apply m, ((i + it.encode.length : Nat) : Int)) := by
  cases it with
  | SourceUid s =>
    exact unmarshalField_string D m i _ s rest 0xa hlen (Or.inl ⟨rfl, rfl⟩) hD
  | SourceIp s =>
    exact unmarshalField_string D m i _ s rest 0x12 hlen (Or.inr (Or.inl ⟨rfl, rfl⟩)) hD
  | DestinationUid s =>
    exact unmarshalField_string D m i _ s rest 0x1a hlen
      (Or.inr (Or.inr (Or.inl ⟨rfl, rfl⟩))) hD
  | DestinationIp s =>
    exact unmarshalField_string D m i _ s rest 0x22 hlen
      (Or.inr (Or.inr (Or.inr ⟨rfl, rfl⟩))) hD
  | binding k v => exact unmarshalField_binding D m i k v rest hlen hD

/-- The loop of `Unmarshal` reads a sequence of fields into the message, one after the other. -/
theorem unmarshalLoop_items (D : List (Fin 256)) (hlen : D.length < 2 ^ 63) :
    ∀ (items : List Item) (fuel : Nat) (m : InstanceParam) (i : Nat), items.length < fuel →
      i ≤ D.length → D.drop i = encodeItems items →
      unmarshalLoop D fuel m (i : Int) = Res.ok (items.foldl Item.apply m) := by
  intro items
  induction items with
  | nil =>
    intro fuel m i hfuel hi hD
    obtain ⟨f, rfl⟩ : ∃ f, fuel = f + 1 := ⟨fuel - 1, by simp at hfuel; omega⟩
    have hge : D.length ≤ i := by
      have := congrArg List.length hD
      rw [List.length_drop] at this
      simp [encodeItems] at this
      omega
    unfold unmarshalLoop
    rw [if_neg (by omega), if_neg (by omega)]
    rfl
  | cons it rest ih =>
    intro fuel m i hfuel hi hD
    obtain ⟨f, rfl⟩ : ∃ f, fuel = f + 1 := ⟨fuel - 1, by simp at hfuel; omega⟩
    have hpos := Item.encode_length_pos it
    have hD1 : D.drop i = it.encode ++ encodeItems rest := hD
    have htot := length_of_drop D i _ hD1 (by simp; omega)
    simp only [List.length_append] at htot
    have hD2 := drop_append_length D i _ _ hD1
    unfold unmarshalLoop
    rw [if_pos (by omega), unmarshalField_item D m i it _ hlen hD1, Res.ok_bind]
    simp only [List.length_cons] at hfuel
    exact ih f (it.apply m) (i + it.encode.length) (by omega) (by omega) hD2

theorem length_le_encodeItems (items : List Item) :
    items.length ≤ (encodeItems items).length := by
  induction items with
  | nil => simp
  | cons it rest ih =>
    have := Item.encode_length_pos it
    simp only [encodeItems, List.length_cons, List.length_append]
    omega

theorem encodeItems_append (a b : List Item) :
    encodeItems (a ++ b) = encodeItems a ++ encodeItems b := by
  induction a with
  | nil => rfl
  | cons it rest ih =>
    show it.encode ++ encodeItems (rest ++ b) = it.encode ++ encodeItems rest ++ encodeItems b
    rw [ih, List.append_assoc]

theorem encodeItems_bindings (l : List (GoString × GoString)) :
    encodeItems (l.map fun kv => Item.binding kv.1 kv.2) = encEntries l := by
  induction l with
  | nil => rfl
  | cons kv rest ih => simp only [List.map_cons, encodeItems, encEntries, ih, Item.encode]

theorem encode_eq_items (m : InstanceParam) : encode m = encodeItems (itemsOf m) := by
  unfold encode itemsOf
  simp only [encodeItems_append, encodeItems_bindings]
  have hs : ∀ (t : Fin 256) (s : GoString) (it : Item),
      it.encode = t :: (varint s.length ++ s) →
      encString t s = encodeItems (if s.length > 0 then [it] else []) := by
    intro t s it hit
    unfold encString
    by_cases h : s.length > 0
    · simp only [if_pos h, encodeItems, hit, List.append_nil]
    · simp only [if_neg h, encodeItems]
  rw [hs 0xa m.SourceUid (Item.SourceUid m.SourceUid) rfl,
    hs 0x12 m.SourceIp (Item.SourceIp m.SourceIp) rfl,
    hs 0x1a m.DestinationUid (Item.DestinationUid m.DestinationUid) rfl,
    hs 0x22 m.DestinationIp (Item.DestinationIp m.DestinationIp) rfl]

/-- `Unmarshal` on the encoding of a message reads its fields into the message given. -/
theorem Unmarshal_encode (m0 m : InstanceParam) (h : (encode m).length < 2 ^ 63) :
    Unmarshal m0 (encode m) = Res.ok ((itemsOf m).foldl Item.apply m0) := by
  unfold Unmarshal
  have hle := length_le_encodeItems (itemsOf m)
  rw [← encode_eq_items] at hle
  have := unmarshalLoop_items (encode m) h (itemsOf m) ((encode m).length + 2) m0 0
    (by omega) (by omega) (by rw [List.drop_zero, encode_eq_items])
  simpa using this


/-! ## The message read back -/

namespace StringMap

theorem lookup_filter_key_ne (l : List (GoString × GoString)) (k k' : GoString) (h : k' ≠ k) :
    (l.filter (fun e => e.1 != k)).lookup k' = l.lookup k' := by
  induction l with
  | nil => rfl
  | cons e t ih =>
    obtain ⟨a, b⟩ := e
    by_cases hak : a = k
    · subst hak
      have h1 : (k' == a) = false := by simpa using h
      simp [List.filter_cons, List.lookup_cons, h1, ih]
    · have h2 : (a != k) = true := by simpa using hak
      simp only [List.filter_cons, h2, if_true, List.lookup_cons, ih]

theorem get?_set_same (m : StringMap) (k v : GoString) : (m.set k v).get? k = some v := by
  simp [get?, set, List.lookup_cons]

theorem get?_set_other (m : StringMap) (k k' v : GoString) (h : k' ≠ k) :
    (m.set k v).get? k' = m.get? k' := by
  have h1 : (k' == k) = false := by simpa using h
  simp [get?, set, List.lookup_cons, h1, lookup_filter_key_ne _ _ _ h]

end StringMap

theorem lookup_eq_none_of_not_mem (l : List (GoString × GoString)) (k : GoString)
    (h : k ∉ l.map Prod.fst) : l.lookup k = none := by
  induction l with
  | nil => rfl
  | cons e t ih =>
    obtain ⟨a, b⟩ := e
    simp only [List.map_cons, List.mem_cons, not_or] at h
    have h1 : (k == a) = false := by simpa using h.1
    simp only [List.lookup_cons, h1]
    exact ih h.2

theorem foldl_binding_fields (l : List (GoString × GoString)) (m : InstanceParam) :
    ((l.map fun kv => Item.binding kv.1 kv.2).foldl Item.apply m).SourceUid = m.SourceUid ∧
      ((l.map fun kv => Item.binding kv.1 kv.2).foldl Item.apply m).SourceIp = m.SourceIp ∧
      ((l.map fun kv => Item.binding kv.1 kv.2).foldl Item.apply m).DestinationUid
        = m.DestinationUid ∧
      ((l.map fun kv => Item.binding kv.1 kv.2).foldl Item.apply m).DestinationIp
        = m.DestinationIp := by
  induction l generalizing m with
  | nil => exact ⟨rfl, rfl, rfl, rfl⟩
  | cons kv rest ih =>
    simp only [List.map_cons, List.foldl_cons]
    exact ih _

theorem foldl_binding_lookup (l : List (GoString × GoString)) (hl : (l.map Prod.fst).Nodup)
    (m : InstanceParam) (k : GoString) :
    ((l.map fun kv => Item.binding kv.1 kv.2).foldl Item.apply m).binding? k =
      match l.lookup k with
      | some v => some v
      | none => m.binding? k := by
  induction l generalizing m with
  | nil => rfl
  | cons kv rest ih =>
    obtain ⟨a, b⟩ := kv
    simp only [List.map_cons, List.nodup_cons] at hl
    simp only [List.map_cons, List.foldl_cons]
    rw [ih hl.2]
    by_cases hak : k = a
    · subst hak
      rw [lookup_eq_none_of_not_mem rest k hl.1]
      simp [List.lookup_cons, Item.apply, InstanceParam.binding?, StringMap.get?_set_same]
    · have h1 : (k == a) = false := by simpa using hak
      simp only [List.lookup_cons, h1]
      cases rest.lookup k with
      | some v => rfl
      | none =>
        simp only [Item.apply, InstanceParam.binding?]
        rw [StringMap.get?_set_other _ _ _ _ hak]
        cases m.AttributeBindings <;> rfl

theorem foldl_string_items (m : InstanceParam) :
    ((if m.SourceUid.length > 0 then [Item.SourceUid m.SourceUid] else []) ++
      ((if m.SourceIp.length > 0 then [Item.SourceIp m.SourceIp] else []) ++
        ((if m.DestinationUid.length > 0 then [Item.DestinationUid m.DestinationUid] else []) ++
          (if m.DestinationIp.length > 0 then [Item.DestinationIp m.DestinationIp]
            else [])))).foldl Item.apply InstanceParam.zero
      = { m with AttributeBindings := none } := by
  have hnil : ∀ s : GoString, ¬ s.length > 0 → s = [] := by
    intro s hs
    exact List.length_eq_zero.1 (by omega)
  obtain ⟨s1, s2, s3, s4, mp⟩ := m
  by_cases h1 : s1.length > 0 <;> by_cases h2 : s2.length > 0 <;>
    by_cases h3 : s3.length > 0 <;> by_cases h4 : s4.length > 0 <;>
    simp [h1, h2, h3, h4, Item.apply, InstanceParam.zero, hnil]

/-- The message read from the encoding of `m` into the zero message has the strings of `m` and
the bindings of `m`. -/
theorem foldl_itemsOf (m : InstanceParam) :
    ((itemsOf m).foldl Item.apply InstanceParam.zero).SourceUid = m.SourceUid ∧
      ((itemsOf m).foldl Item.apply InstanceParam.zero).SourceIp = m.SourceIp ∧
      ((itemsOf m).foldl Item.apply InstanceParam.zero).DestinationUid = m.DestinationUid ∧
      ((itemsOf m).foldl Item.apply InstanceParam.zero).DestinationIp = m.DestinationIp ∧
      ∀ k, ((itemsOf m).foldl Item.apply InstanceParam.zero).binding? k = m.binding? k := by
  have hitems : (itemsOf m).foldl Item.apply InstanceParam.zero
      = ((bindingsOf m).map fun kv => Item.binding kv.1 kv.2).foldl Item.apply
          { m with AttributeBindings := none } := by
    unfold itemsOf
    simp only [← List.append_assoc]
    rw [List.foldl_append]
    simp only [List.append_assoc]
    rw [foldl_string_items]
  rw [hitems]
  obtain ⟨f1, f2, f3, f4⟩ := foldl_binding_fields (bindingsOf m)
    { m with AttributeBindings := none }
  refine ⟨f1, f2, f3, f4, ?_⟩
  intro k
  have hnodup : ((bindingsOf m).map Prod.fst).Nodup := by
    unfold bindingsOf
    cases m.AttributeBindings with
    | none => exact List.nodup_nil
    | some mp => exact mp.nodupKeys
  rw [foldl_binding_lookup _ hnodup]
  unfold bindingsOf InstanceParam.binding?
  cases m.AttributeBindings with
  | none => rfl
  | some mp =>
    simp only [StringMap.get?]
    cases mp.entries.lookup k <;> rfl


/-! ## The claims on the generated code -/

/-- C21 fails on the code: on the ten bytes `0a ff ff ff ff ff ff ff ff 7f` (field 1 with the
length `2 ^ 63 - 1`) the sum `iNdEx + intStringLen` overflows to a negative `postIndex`, the test
`postIndex > l` lets it pass and the slice expression `dAtA[iNdEx:postIndex]` panics; the same
happens for a binding with that length, and an overflowing length inside a skipped group sends
the index below 0. -/
theorem Unmarshal_panics_on_overflowing_length :
    readString overflowInput 1 = Res.panic ∧
      Unmarshal InstanceParam.zero overflowInput = Res.panic ∧
      Unmarshal InstanceParam.zero
        [0x82, 0xd3, 0xe4, 0x93, 0x02, 0xff, 0xff, 0xff, 0xff, 0xff, 0xff, 0xff, 0xff, 0x7f]
          = Res.panic ∧
      Unmarshal InstanceParam.zero
        [0x2b, 0x0a, 0xff, 0xff, 0xff, 0xff, 0xff, 0xff, 0xff, 0xff, 0x7f, 0x2c] = Res.panic := by
  decide

/-- C22: for a message `m` whose encoding fits an `int`, `Marshal` returns bytes without error
and `Unmarshal` of these bytes into a fresh message returns no error and yields a message with
the four strings of `m` and with the same binding as `m` under every key (a nil map and an empty
map both have no binding). The entries are written in the order of the list `entries`, which is
any order. -/
theorem Unmarshal_Marshal (m : InstanceParam) (hfits : Size m < 2 ^ 63) :
    ∃ bytes m2, Marshal m = Res.ok bytes ∧
      Unmarshal InstanceParam.zero bytes = Res.ok m2 ∧
      (Marshal m).bind (Unmarshal InstanceParam.zero) = Res.ok m2 ∧
      m2.SourceUid = m.SourceUid ∧ m2.SourceIp = m.SourceIp ∧
      m2.DestinationUid = m.DestinationUid ∧ m2.DestinationIp = m.DestinationIp ∧
      ∀ k, m2.binding? k = m.binding? k := by
  rw [Size_eq] at hfits
  have hu := Unmarshal_encode InstanceParam.zero m hfits
  obtain ⟨f1, f2, f3, f4, fb⟩ := foldl_itemsOf m
  refine ⟨encode m, (itemsOf m).foldl Item.apply InstanceParam.zero, Marshal_eq m, hu, ?_,
    f1, f2, f3, f4, fb⟩
  rw [Marshal_eq, Res.ok_bind, hu]

/-- C23: for a message `m` whose size fits an `int`, `MarshalTo` on a buffer of `Size` bytes
makes no write out of the buffer (it does not panic) and returns `Size`, the buffer keeping
its length; `Marshal` returns `Size` bytes; and `encodeVarintTemplateHandlerService` writes
exactly `sovTemplateHandlerService(v)` bytes for every 64-bit `v`, leaving the rest of the buffer
as it was. -/
theorem MarshalTo_returns_Size (m : InstanceParam) (dAtA : List (Fin 256))
    (hlen : dAtA.length = Size m) (_hfits : Size m < 2 ^ 63) :
    (∃ buf, MarshalTo m dAtA = Res.ok (buf, Size m) ∧ buf.length = Size m) ∧
      (∃ bytes, Marshal m = Res.ok bytes ∧ bytes.length = Size m) ∧
      ∀ (d : List (Fin 256)) (offset v : Nat), v < 2 ^ 64 →
        offset + sovTemplateHandlerService v ≤ d.length →
        ∃ buf, encodeVarintTemplateHandlerService d offset v
            = Res.ok (buf, offset + sovTemplateHandlerService v) ∧
          buf.length = d.length ∧ buf.take offset = d.take offset ∧
          buf.drop (offset + sovTemplateHandlerService v)
            = d.drop (offset + sovTemplateHandlerService v) := by
  refine ⟨?_, ?_, ?_⟩
  · rw [Size_eq] at hlen ⊢
    refine ⟨splice dAtA 0 (encode m), MarshalTo_eq m dAtA (by omega), ?_⟩
    rw [length_splice dAtA 0 (encode m) (by omega), hlen]
  · exact ⟨encode m, Marshal_eq m, (Size_eq m).symm⟩
  · intro d offset v _ hroom
    rw [sov_eq_length] at hroom ⊢
    refine ⟨splice d offset (varint v), encodeVarint_splice d offset v hroom,
      length_splice d offset _ hroom, ?_, ?_⟩
    · unfold splice
      rw [List.append_assoc, List.take_left' (by rw [List.length_take]; omega)]
    · unfold splice
      have hl : (d.take offset ++ varint v).length = offset + (varint v).length := by
        rw [List.length_append, List.length_take]; omega
      rw [List.drop_left' hl]

/-! ## Instances of the claims on the example data -/

theorem Unmarshal_Marshal_witness :
    Size exampleParam < 2 ^ 63 ∧
      ∃ bytes m2, Marshal exampleParam = Res.ok bytes ∧
        Unmarshal InstanceParam.zero bytes = Res.ok m2 ∧
        (Marshal exampleParam).bind (Unmarshal InstanceParam.zero) = Res.ok m2 ∧
        m2.SourceUid = exampleParam.SourceUid ∧ m2.SourceIp = exampleParam.SourceIp ∧
        m2.DestinationUid = exampleParam.DestinationUid ∧
        m2.DestinationIp = exampleParam.DestinationIp ∧
        ∀ k, m2.binding? k = exampleParam.binding? k :=
  ⟨by decide, Unmarshal_Marshal exampleParam (by decide)⟩

theorem MarshalTo_returns_Size_witness :
    (List.replicate 37 (0 : Fin 256)).length = Size exampleParam ∧
      ∃ buf, MarshalTo exampleParam (List.replicate 37 0) = Res.ok (buf, Size exampleParam) ∧
        buf.length = Size exampleParam :=
  ⟨by decide,
    (MarshalTo_returns_Size exampleParam (List.replicate 37 0) (by decide) (by decide)).1⟩

end Kubernetes
